import Mathlib

/-!
# numbers.c: the "number above 10" prompt loop

A shallow embedding of `src/zachy/numbers.c`.  The program is one `while` loop
around `printf`, `scanf("%f", ...)` and `getchar`.  It is embedded as a
deterministic small-step machine (`step`, iterated by `run`) whose program
counter has one value per statement of `main`.  Standard input is a finite list
of characters (an exhausted list is end-of-file), standard output is the list
of strings written, one per `printf` call.

The library calls are those of the GNU C library, in the "C" locale.
`scanf("%f")` skips white space, then reads characters one at a time while they
go on with a number (decimal, hexadecimal, `inf`/`infinity` or `nan`), and
stores the number found in the characters read, rounded to IEEE-754 single
precision (to nearest, ties to even, overflow to infinity).  The character that
ends a number is put back; a character that breaks off the word `nan` or `inf`
is consumed.  `printf("%.2f")` prints the exact value of the float rounded to
hundredths, ties to even.
-/

namespace Numbers

/-! ## Single-precision values -/

/-- A value of C type `float` (IEEE-754 binary32).  `finite neg m e` stands for
`(-1)^neg * m * 2^e`; `nan` stands for any NaN (a NaN is never above 10, so the
program never prints one and its sign does not matter). -/
inductive F32 where
  | finite (neg : Bool) (m : Nat) (e : Int)
  | inf (neg : Bool)
  | nan
  deriving DecidableEq, Repr

/-- The C comparison `x > k` for a float `x` and a small integer constant `k`
(which converts to `float` exactly). -/
def F32.gt (x : F32) (k : Nat) : Bool :=
  match x with
  | .finite false m e => if 0 ≤ e then decide (k < m * 2 ^ e.toNat) else decide (k * 2 ^ (-e).toNat < m)
  | .finite true _ _ => false
  | .inf neg => !neg
  | .nan => false

/-- The C comparison `x <= k` for a float `x` and a small integer constant `k`. -/
def F32.le (x : F32) (k : Nat) : Bool :=
  match x with
  | .finite false m e => if 0 ≤ e then decide (m * 2 ^ e.toNat ≤ k) else decide (m ≤ k * 2 ^ (-e).toNat)
  | .finite true _ _ => true
  | .inf neg => neg
  | .nan => false

/-- Quotient `n / d` rounded to the nearest integer, ties to the even one. -/
def divRne (n d : Nat) : Nat :=
  let q := n / d
  let r := n % d
  if 2 * r < d then q
  else if 2 * r = d then (if q % 2 = 0 then q else q + 1)
  else q + 1

/-- Whether `2^e ≤ n / d`. -/
def pow2Le (e : Int) (n d : Nat) : Bool :=
  if 0 ≤ e then decide (d * 2 ^ e.toNat ≤ n) else decide (d ≤ n * 2 ^ (-e).toNat)

/-- Halving count: `log2Fuel fuel n` is `⌊log2 n⌋` when `n ≤ fuel`. -/
def log2Fuel : Nat → Nat → Nat
  | 0, _ => 0
  | fuel + 1, n => if 2 ≤ n then log2Fuel fuel (n / 2) + 1 else 0

/-- Position of the highest set bit, `⌊log2 n⌋` (and `0` for `n = 0`). -/
def ilog2 (n : Nat) : Nat := log2Fuel n n

/-- The binary32 nearest to `(-1)^neg * n / d` (round to nearest, ties to even;
24 significant bits, least exponent -126, overflow to infinity). -/
def roundF32 (neg : Bool) (n d : Nat) : F32 :=
  if n = 0 then .finite neg 0 0
  else
    let e0 : Int := (ilog2 n : Int) - (ilog2 d : Int)
    let e : Int := if pow2Le e0 n d then e0 else e0 - 1
    let q : Int := max e (-126) - 23
    let m : Nat := if 0 ≤ q then divRne n (d * 2 ^ q.toNat) else divRne (n * 2 ^ (-q).toNat) d
    if 104 < q ∨ (q = 104 ∧ 2 ^ 24 ≤ m) then .inf neg else .finite neg m q

/-- The number written in the input, before it is rounded to a `float`:
`quot neg n d` stands for `(-1)^neg * n / d`. -/
inductive Num where
  | quot (neg : Bool) (n d : Nat)
  | inf (neg : Bool)
  | nan
  deriving DecidableEq, Repr

/-- The float stored for a number read from the input. -/
def Num.toF32 (x : Num) : F32 :=
  match x with
  | .quot neg n d => roundF32 neg n d
  | .inf neg => .inf neg
  | .nan => .nan

/-- Whether the number is greater than the integer `k`. -/
def Num.gt (x : Num) (k : Nat) : Bool :=
  match x with
  | .quot false n d => decide (k * d < n)
  | .quot true _ _ => false
  | .inf neg => !neg
  | .nan => false

/-- Whether the number is at most the integer `k`. -/
def Num.le (x : Num) (k : Nat) : Bool :=
  match x with
  | .quot false n d => decide (n ≤ k * d)
  | .quot true _ _ => true
  | .inf neg => neg
  | .nan => false

/-! ## `printf("%.2f")` -/

/-- Two decimal digits of a number below 100. -/
def twoDigits (n : Nat) : List Char :=
  [Char.ofNat (48 + n / 10 % 10), Char.ofNat (48 + n % 10)]

/-- Number of hundredths nearest to `m * 2^e` (ties to even). -/
def hundredths (m : Nat) (e : Int) : Nat :=
  if 0 ≤ e then m * 2 ^ e.toNat * 100 else divRne (m * 100) (2 ^ (-e).toNat)

/-- Text that `printf("%.2f", x)` writes for the float `x`. -/
def fmt2f (x : F32) : List Char :=
  match x with
  | .finite neg m e =>
      let h := hundredths m e
      (if neg then ['-'] else []) ++ Nat.toDigits 10 (h / 100) ++ '.' :: twoDigits (h % 100)
  | .inf neg => (if neg then ['-'] else []) ++ ['i', 'n', 'f']
  | .nan => ['n', 'a', 'n']

/-! ## `scanf("%f")` -/

/-- C `isspace` in the "C" locale: space, `\t`, `\n`, `\v`, `\f`, `\r`. -/
def isspace (c : Char) : Bool :=
  c.toNat = 32 || (9 ≤ c.toNat && c.toNat ≤ 13)

/-- C `isdigit`. -/
def isdigit (c : Char) : Bool :=
  48 ≤ c.toNat && c.toNat ≤ 57

/-- Value of a hexadecimal digit, if the character is one. -/
def hexval (c : Char) : Option Nat :=
  if 48 ≤ c.toNat && c.toNat ≤ 57 then some (c.toNat - 48)
  else if 97 ≤ c.toNat && c.toNat ≤ 102 then some (c.toNat - 87)
  else if 65 ≤ c.toNat && c.toNat ≤ 70 then some (c.toNat - 55)
  else none

/-- Lower-case form of an ASCII letter (other characters unchanged). -/
def tolower (c : Char) : Char :=
  if 65 ≤ c.toNat && c.toNat ≤ 90 then Char.ofNat (c.toNat + 32) else c

/-- How much of a floating-point number has been read so far. -/
inductive Phase where
  | start        -- nothing
  | sign         -- a sign
  | zero         -- a leading `0`, which may begin `0x`
  | int          -- digits
  | point        -- `.` with no digit yet
  | frac         -- digits with a `.`
  | expMark      -- number followed by `e`
  | expSign      -- ... and a sign
  | exp          -- ... and exponent digits
  | hexMark      -- `0x`
  | hexInt       -- `0x` and hex digits
  | hexPoint     -- `0x.` with no digit yet
  | hexFrac      -- `0x`, a `.` and hex digits on one side at least
  | hexExpMark   -- hex number followed by `p`
  | hexExpSign   -- ... and a sign
  | hexExp       -- ... and exponent digits
  | infinity (k : Nat)   -- the first `k` letters of `infinity`
  | nan (k : Nat)        -- the first `k` letters of `nan`
  deriving DecidableEq, Repr

/-- Scanner state: the phase and the digits collected. -/
structure Lex where
  phase : Phase
  neg : Bool
  mant : Nat
  fracDigits : Nat
  expNeg : Bool
  expo : Nat
  deriving DecidableEq, Repr

/-- Scanner state before the first character of the number. -/
def Lex.init : Lex :=
  { phase := .start, neg := false, mant := 0, fracDigits := 0, expNeg := false, expo := 0 }

/-- Letters of `infinity`. -/
def infinityLetters : List Char := ['i', 'n', 'f', 'i', 'n', 'i', 't', 'y']

/-- Letters of `nan`. -/
def nanLetters : List Char := ['n', 'a', 'n']

/-- First character after the optional sign: `n` and `i` start the words `nan`
and `inf`, `0` may start `0x`, a digit or the point start a decimal number. -/
def feedHead (l : Lex) (c : Char) : Option Lex :=
  if tolower c = 'n' then some { l with phase := .nan 1 }
  else if tolower c = 'i' then some { l with phase := .infinity 1 }
  else if c = '0' then some { l with phase := .zero }
  else if isdigit c then some { l with phase := .int, mant := c.toNat - 48 }
  else if c = '.' then some { l with phase := .point }
  else none

/-- Continuation of a decimal number of which a digit was read: more digits,
the exponent mark, or the point when none was read. -/
def feedDec (l : Lex) (c : Char) (dot : Bool) : Option Lex :=
  if isdigit c then
    some { l with phase := if dot then .frac else .int, mant := l.mant * 10 + (c.toNat - 48),
                  fracDigits := if dot then l.fracDigits + 1 else l.fracDigits }
  else if tolower c = 'e' then some { l with phase := .expMark }
  else if c = '.' && !dot then some { l with phase := .frac }
  else none

/-- Continuation of a hexadecimal number of which a digit was read. -/
def feedHex (l : Lex) (c : Char) (dot : Bool) : Option Lex :=
  match hexval c with
  | some v =>
    some { l with phase := if dot then .hexFrac else .hexInt, mant := l.mant * 16 + v,
                  fracDigits := if dot then l.fracDigits + 1 else l.fracDigits }
  | none =>
    if tolower c = 'p' then some { l with phase := .hexExpMark }
    else if c = '.' && !dot then some { l with phase := .hexFrac }
    else none

/-- One character offered to the scanner: the next state when the character is
taken into the number, `none` when it is not. -/
def feed (l : Lex) (c : Char) : Option Lex :=
  match l.phase with
  | .start =>
    if c = '-' then some { l with phase := .sign, neg := true }
    else if c = '+' then some { l with phase := .sign }
    else feedHead l c
  | .sign => feedHead l c
  | .zero => if tolower c = 'x' then some { l with phase := .hexMark } else feedDec l c false
  | .int => feedDec l c false
  | .point =>
    if isdigit c then
      some { l with phase := .frac, mant := l.mant * 10 + (c.toNat - 48), fracDigits := l.fracDigits + 1 }
    else none
  | .frac => feedDec l c true
  | .expMark =>
    if isdigit c then some { l with phase := .exp, expo := c.toNat - 48 }
    else if c = '-' then some { l with phase := .expSign, expNeg := true }
    else if c = '+' then some { l with phase := .expSign }
    else none
  | .expSign => if isdigit c then some { l with phase := .exp, expo := c.toNat - 48 } else none
  | .exp => if isdigit c then some { l with expo := l.expo * 10 + (c.toNat - 48) } else none
  | .hexMark =>
    match hexval c with
    | some v => some { l with phase := .hexInt, mant := v }
    | none => if c = '.' then some { l with phase := .hexPoint } else none
  | .hexInt => feedHex l c false
  | .hexPoint =>
    match hexval c with
    | some v => some { l with phase := .hexFrac, mant := l.mant * 16 + v, fracDigits := l.fracDigits + 1 }
    | none => none
  | .hexFrac => feedHex l c true
  | .hexExpMark =>
    if isdigit c then some { l with phase := .hexExp, expo := c.toNat - 48 }
    else if c = '-' then some { l with phase := .hexExpSign, expNeg := true }
    else if c = '+' then some { l with phase := .hexExpSign }
    else none
  | .hexExpSign => if isdigit c then some { l with phase := .hexExp, expo := c.toNat - 48 } else none
  | .hexExp => if isdigit c then some { l with expo := l.expo * 10 + (c.toNat - 48) } else none
  | .infinity k =>
    if k < 8 ∧ infinityLetters.get? k = some (tolower c) then some { l with phase := .infinity (k + 1) }
    else none
  | .nan k =>
    if k < 3 ∧ nanLetters.get? k = some (tolower c) then some { l with phase := .nan (k + 1) }
    else none

/-- Whether a character that is not taken into the number is lost.  While the
scanner is inside the word `nan` or `inf`, or inside the `inity` of `infinity`,
it reads the next character without a way back: a character that does not go
on with the word is consumed, and the conversion fails.  Everywhere else the
character that ends the number is put back and stays unread. -/
def eats (p : Phase) : Bool :=
  match p with
  | .nan k => k = 1 || k = 2
  | .infinity k => k = 1 || k = 2 || k = 4 || k = 5 || k = 6 || k = 7
  | _ => false

/-- Read the input item: characters are taken while they go on with the number;
the first one that does not ends the item, and is either put back or lost
(`eats`). -/
def lexRun (l : Lex) : List Char → Lex × List Char
  | [] => (l, [])
  | c :: cs =>
    match feed l c with
    | none => (l, if eats l.phase then cs else c :: cs)
    | some l1 => lexRun l1 cs

/-- The number that the conversion (`strtof` on the characters read) finds in
the item, if any.  An exponent mark, with or without a sign, that no digit
follows is read but does not count; `0x.` counts as `0`; a sign, a point or
`0x` alone, and an unfinished `nan`, `inf` or `infinity`, are not numbers. -/
def Lex.number (l : Lex) : Option Num :=
  match l.phase with
  | .zero | .int | .frac | .expMark | .expSign | .exp =>
    let x : Int := (if l.expNeg then -(l.expo : Int) else (l.expo : Int)) - (l.fracDigits : Int)
    some (if 0 ≤ x then .quot l.neg (l.mant * 10 ^ x.toNat) 1 else .quot l.neg l.mant (10 ^ (-x).toNat))
  | .hexInt | .hexPoint | .hexFrac | .hexExpMark | .hexExpSign | .hexExp =>
    let x : Int := (if l.expNeg then -(l.expo : Int) else (l.expo : Int)) - 4 * (l.fracDigits : Int)
    some (if 0 ≤ x then .quot l.neg (l.mant * 2 ^ x.toNat) 1 else .quot l.neg l.mant (2 ^ (-x).toNat))
  | .infinity k => if k = 3 ∨ k = 8 then some (.inf l.neg) else none
  | .nan k => if k = 3 then some .nan else none
  | _ => none

/-- The number at the head of the input (after white space), if there is one:
what `scanf("%f")` converts. -/
def scanNum (input : List Char) : Option Num :=
  (lexRun Lex.init (input.dropWhile isspace)).1.number

/-- Result of `scanf("%f", &x)`: the returned count (`1` stored, `0` matching
failure, `-1` = `EOF` input failure), the value stored if any, and the input
left unread. -/
structure Scan where
  ret : Int
  value : Option F32
  rest : List Char
  deriving DecidableEq, Repr

/-- The call `scanf("%f", &x)` on the given input: white space is skipped, the
item is read, and its number, if it has one, is stored as a `float`.  The call
returns `EOF` when the input ends before any character of an item. -/
def scanf_f (input : List Char) : Scan :=
  let body := input.dropWhile isspace
  let r := lexRun Lex.init body
  if body = [] then { ret := -1, value := none, rest := r.2 }
  else
    match r.1.number with
    | some x => { ret := 1, value := some x.toF32, rest := r.2 }
    | none => { ret := 0, value := none, rest := r.2 }

/-- The call `getchar()`: the next character as an `int`, or `EOF` (`-1`). -/
def getchar (input : List Char) : Int × List Char :=
  match input with
  | [] => (-1, [])
  | c :: cs => ((c.toNat : Int), cs)

/-! ## The program -/

/-- The prompt written at the top of each iteration. -/
def promptMsg : List Char := "Please enter a number above 10: ".toList

/-- The message after a failed `scanf`. -/
def invalidMsg : List Char := "Invalid input. Please enter a valid number.\n".toList

/-- The message for a value that is not above 10. -/
def lowMsg : List Char := "That doesn't fit! Try again!\n".toList

/-- The message for an accepted value: `"Thanks, that works! %.2f is a great choice!\n"`. -/
def successMsg (v : F32) : List Char :=
  "Thanks, that works! ".toList ++ fmt2f v ++ " is a great choice!\n".toList

/-- Program points of `main`, one per statement. -/
inductive Pc where
  | loop         -- `while (invalid_number)`
  | prompt       -- `printf("Please enter a number above 10: ");`
  | scan         -- `if (scanf("%f", &user_value) != 1)`
  | clear        -- `while (getchar() != '\n');`
  | invalid      -- `printf("Invalid input. ...\n"); continue;`
  | test         -- `if (user_value > 10)`
  | success      -- `printf("Thanks, that works! %.2f ...\n", user_value);`
  | clearFlag    -- `invalid_number = 0;`
  | low          -- `printf("That doesn't fit! Try again!\n");`
  | ret          -- `return 0;`
  | halted       -- `main` has returned
  deriving DecidableEq, Repr

/-- Machine state: the program point, the two locals of `main`, the streams, the
exit status once `main` has returned, and `scanned`, the record of the values
stored by successful `scanf` calls (an observation, never read by the program). -/
structure State where
  pc : Pc
  user_value : F32
  invalid_number : Int
  stdin : List Char
  stdout : List (List Char)
  exit : Option Int
  scanned : List F32
  deriving DecidableEq, Repr

/-- State on entry to the loop.  `user_value` is declared without an initial
value, so its content `v0` is arbitrary. -/
def init (v0 : F32) (input : List Char) : State :=
  { pc := .loop, user_value := v0, invalid_number := 1, stdin := input, stdout := [],
    exit := none, scanned := [] }

/-- One statement of `main`. -/
def step (s : State) : State :=
  match s.pc with
  | .loop => if s.invalid_number ≠ 0 then { s with pc := .prompt } else { s with pc := .ret }
  | .prompt => { s with pc := .scan, stdout := s.stdout ++ [promptMsg] }
  | .scan =>
    let r := scanf_f s.stdin
    match r.value with
    | some v =>
      { s with pc := if r.ret ≠ 1 then .clear else .test, user_value := v, stdin := r.rest,
               scanned := s.scanned ++ [v] }
    | none => { s with pc := if r.ret ≠ 1 then .clear else .test, stdin := r.rest }
  | .clear =>
    let g := getchar s.stdin
    if g.1 ≠ 10 then { s with pc := .clear, stdin := g.2 } else { s with pc := .invalid, stdin := g.2 }
  | .invalid => { s with pc := .loop, stdout := s.stdout ++ [invalidMsg] }
  | .test => if s.user_value.gt 10 then { s with pc := .success } else { s with pc := .low }
  | .success => { s with pc := .clearFlag, stdout := s.stdout ++ [successMsg s.user_value] }
  | .clearFlag => { s with pc := .loop, invalid_number := 0 }
  | .low => { s with pc := .loop, stdout := s.stdout ++ [lowMsg] }
  | .ret => { s with pc := .halted, exit := some 0 }
  | .halted => s

/-- The state after `n` statements. -/
def run : Nat → State → State
  | 0, s => s
  | n + 1, s => run n (step s)

/-! ## Predicates and helpers used to state the properties -/

/-- A token is a non-empty run of characters without white space. -/
def IsToken (t : List Char) : Prop := t ≠ [] ∧ ∀ c ∈ t, isspace c = false

instance (t : List Char) : Decidable (IsToken t) := by
  unfold IsToken; infer_instance

/-- Output made of prompts, invalid-input messages and below-threshold messages only. -/
def Plain (out : List (List Char)) : Prop :=
  ∀ m ∈ out, m = promptMsg ∨ m = invalidMsg ∨ m = lowMsg

/-- Stored values none of which passed the test `user_value > 10`. -/
def Rejected (vs : List F32) : Prop :=
  ∀ u ∈ vs, u.gt 10 = false

/-- The loop is still asking: nothing accepted, nothing returned. -/
def Asking (s : State) : Prop :=
  s.invalid_number ≠ 0 ∧ s.exit = none ∧ Plain s.stdout ∧ Rejected s.scanned

/-- A value was stored and is about to be tested. -/
def Testing (s : State) : Prop :=
  s.invalid_number ≠ 0 ∧ s.exit = none ∧ Plain s.stdout ∧
    ∃ vs, s.scanned = vs ++ [s.user_value] ∧ Rejected vs

/-- A value was accepted: the success message is the last output, it reports
the last value stored, and that value is the only one that passed the test. -/
def Accepted (s : State) : Prop :=
  ∃ pre vs v, s.stdout = pre ++ [successMsg v] ∧ Plain pre ∧ s.scanned = vs ++ [v] ∧
    Rejected vs ∧ v.gt 10 = true

/-- What holds at each program point of a run from `init`. -/
def Inv (s : State) : Prop :=
  match s.pc with
  | .loop => Asking s ∨ (s.invalid_number = 0 ∧ s.exit = none ∧ Accepted s)
  | .prompt => Asking s
  | .scan => Asking s
  | .clear => Asking s
  | .invalid => Asking s
  | .low => Asking s
  | .test => Testing s
  | .success => Testing s ∧ s.user_value.gt 10 = true
  | .clearFlag => s.exit = none ∧ Accepted s
  | .ret => s.exit = none ∧ Accepted s
  | .halted => s.exit = some 0 ∧ Accepted s

/-- Two states that agree on everything but `user_value`, and on `user_value`
too at the two program points that read it. -/
def SameBut (s t : State) : Prop :=
  s.pc = t.pc ∧ s.invalid_number = t.invalid_number ∧ s.stdin = t.stdin ∧ s.stdout = t.stdout ∧
    s.exit = t.exit ∧ s.scanned = t.scanned ∧
    ((s.pc = .test ∨ s.pc = .success) → s.user_value = t.user_value)

/-- Lines of input, one token per line. -/
def joinLines : List (List Char) → List Char
  | [] => []
  | x :: xs => x ++ '\n' :: joinLines xs

/-- A token on which `scanf("%f")` reports a matching failure and after which
it leaves the line terminator unread (`abc`, `-`, `.`; not `n`, the start of
`nan`, after which the line terminator is consumed). -/
def Unparsed (t : List Char) : Prop :=
  (scanf_f (t ++ ['\n'])).ret = 0 ∧ (scanf_f (t ++ ['\n'])).rest ≠ []

instance (t : List Char) : Decidable (Unparsed t) := by
  unfold Unparsed; infer_instance

/-- A token that `scanf("%f")` consumes whole, storing the float `v`, and after
which it leaves the line terminator unread. -/
def ParsedAs (t : List Char) (v : F32) : Prop :=
  scanf_f (t ++ ['\n']) = ⟨1, some v, ['\n']⟩

instance (t : List Char) (v : F32) : Decidable (ParsedAs t v) := by
  unfold ParsedAs; infer_instance

/-- The message expected for a token which does not end the loop: the
below-threshold message when `scanf` stores a number, the invalid-input message
when it does not. -/
def tokenMsg (t : List Char) : List Char :=
  if (scanf_f (t ++ ['\n'])).ret = 1 then "That doesn't fit! Try again!\n".toList
  else "Invalid input. Please enter a valid number.\n".toList

/-- Output expected for a sequence of tokens none of which ends the loop: the
prompt and the token's message, for each in turn. -/
def transcript : List (List Char) → List (List Char)
  | [] => []
  | x :: xs => "Please enter a number above 10: ".toList :: tokenMsg x :: transcript xs

/-! ## Running the machine -/

theorem run_add (a b : Nat) (s : State) : run (a + b) s = run b (run a s) := by
  induction a generalizing s with
  | zero => simp [run]
  | succ a ih => rw [Nat.succ_add]; simp only [run]; exact ih (step s)

theorem run_succ_last (n : Nat) (s : State) : run (n + 1) s = step (run n s) := by
  rw [run_add]; rfl

theorem step_halted (s : State) (h : s.pc = .halted) : step s = s := by
  simp [step, h]

theorem run_halted (n : Nat) (s : State) (h : s.pc = .halted) : run n s = s := by
  induction n with
  | zero => rfl
  | succ n ih => simp only [run]; rw [step_halted s h]; exact ih

/-- Once `main` has returned the state no longer changes. -/
theorem run_halted_le (s : State) (n m : Nat) (h : (run n s).pc = .halted) (hnm : n ≤ m) :
    run m s = run n s := by
  obtain ⟨k, rfl⟩ := Nat.exists_eq_add_of_le hnm
  rw [run_add]; exact run_halted k _ h

/-- With the input exhausted, `while (getchar() != '\n');` never leaves. -/
theorem step_clear_eof (s : State) (h : s.pc = .clear) (hin : s.stdin = []) : step s = s := by
  cases s; simp_all [step, getchar]

theorem run_clear_eof (n : Nat) (s : State) (h : s.pc = .clear) (hin : s.stdin = []) :
    run n s = s := by
  induction n with
  | zero => rfl
  | succ n ih => simp only [run]; rw [step_clear_eof s h hin]; exact ih

theorem newline_toNat (c : Char) : ((c.toNat : Int) = 10) ↔ c = '\n' := by
  constructor
  · intro h
    have h1 : c.toNat = 10 := by exact_mod_cast h
    rw [← Char.ofNat_toNat c, h1]
  · rintro rfl; rfl

/-- The clearing loop on input that holds a newline: everything through the
first newline is read and dropped. -/
theorem run_clear (pre post : List Char) (s : State) (h : s.pc = .clear)
    (hin : s.stdin = pre ++ '\n' :: post) (hpre : '\n' ∉ pre) :
    run (pre.length + 1) s = { s with pc := .invalid, stdin := post } := by
  induction pre generalizing s with
  | nil =>
    cases s; simp_all [run, step, getchar]
  | cons c cs ih =>
    have hc : c ≠ '\n' := fun hc => hpre (by simp [hc])
    have hcs : '\n' ∉ cs := fun hm => hpre (by simp [hm])
    have hs : step s = { s with stdin := cs ++ '\n' :: post } := by
      cases s; simp_all [step, getchar, newline_toNat]
    show run (cs.length + 1) (step s) = _
    rw [hs, ih { s with stdin := cs ++ '\n' :: post } h rfl hcs]

/-! ## The scanner -/

theorem isspace_cases (c : Char) (h : isspace c = true) :
    c = ' ' ∨ c = '\t' ∨ c = '\n' ∨ c = '\x0b' ∨ c = '\x0c' ∨ c = '\r' := by
  have hn : c.toNat = 32 ∨ c.toNat = 9 ∨ c.toNat = 10 ∨ c.toNat = 11 ∨ c.toNat = 12 ∨ c.toNat = 13 := by
    simp [isspace] at h; omega
  have hc := Char.ofNat_toNat c
  rcases hn with h1 | h1 | h1 | h1 | h1 | h1 <;> rw [h1] at hc <;> simp [← hc]

theorem get?_mem_of_eq {l : List Char} {k : Nat} {x : Char} (h : l.get? k = some x) : x ∈ l :=
  List.get?_mem h

/-- White space is never taken into a number. -/
theorem feed_space (l : Lex) (c : Char) (h : isspace c = true) : feed l c = none := by
  have hi : ∀ k, ¬ (k < 8 ∧ infinityLetters.get? k = some (tolower c)) := by
    rintro k ⟨_, hk⟩
    have hm := get?_mem_of_eq hk
    rcases isspace_cases c h with rfl | rfl | rfl | rfl | rfl | rfl <;> revert hm <;> decide
  have hn : ∀ k, ¬ (k < 3 ∧ nanLetters.get? k = some (tolower c)) := by
    rintro k ⟨_, hk⟩
    have hm := get?_mem_of_eq hk
    rcases isspace_cases c h with rfl | rfl | rfl | rfl | rfl | rfl <;> revert hm <;> decide
  obtain ⟨ph, neg, mant, fd, en, ex⟩ := l
  cases ph
  case infinity k => simp only [feed]; rw [if_neg (hi k)]
  case nan k => simp only [feed]; rw [if_neg (hn k)]
  all_goals
    rcases isspace_cases c h with rfl | rfl | rfl | rfl | rfl | rfl <;>
      simp [feed, feedHead, feedDec, feedHex, isdigit, hexval, tolower]

/-- A state that holds a number is not one in which a character gets lost. -/
theorem number_not_eats (l : Lex) (x : Num) (h : l.number = some x) : eats l.phase = false := by
  obtain ⟨ph, neg, mant, fd, en, ex⟩ := l
  cases ph
  case infinity k =>
    simp only [Lex.number] at h
    split_ifs at h with hk
    rcases hk with rfl | rfl <;> rfl
  case nan k =>
    simp only [Lex.number] at h
    split_ifs at h with hk
    subst hk; rfl
  all_goals rfl

/-- What the scanner consumes is a beginning of the input, and scanning that
beginning alone ends in the same state; when it consumes nothing its state is
unchanged; when no character was lost, what it consumed has no white space. -/
theorem lexRun_split (l : Lex) (input : List Char) :
    ∃ item, input = item ++ (lexRun l input).2 ∧ lexRun l item = ((lexRun l input).1, []) ∧
      (item = [] → (lexRun l input).1 = l) ∧
      (eats (lexRun l input).1.phase = false → ∀ c ∈ item, isspace c = false) := by
  induction input generalizing l with
  | nil => exact ⟨[], by simp [lexRun]⟩
  | cons c cs ih =>
    cases hf : feed l c with
    | none =>
      cases he : eats l.phase with
      | false => exact ⟨[], by simp [lexRun, hf, he]⟩
      | true => exact ⟨[c], by simp [lexRun, hf, he]⟩
    | some l1 =>
      obtain ⟨item, h1, h2, _, h4⟩ := ih l1
      refine ⟨c :: item, ?_, ?_, by simp, ?_⟩
      · simp only [lexRun, hf, List.cons_append]; rw [← h1]
      · simp only [lexRun, hf]; exact h2
      · simp only [lexRun, hf]
        intro he x hx
        rcases List.mem_cons.mp hx with rfl | hx
        · cases hsp : isspace x with
          | false => rfl
          | true => rw [feed_space l x hsp] at hf; cases hf
        · exact h4 he x hx

/-- When no character was lost, the first unread character is one that does not
go on with the number. -/
theorem lexRun_stop (l : Lex) (input : List Char) (c : Char) (cs : List Char)
    (he : eats (lexRun l input).1.phase = false) (hr : (lexRun l input).2 = c :: cs) :
    feed (lexRun l input).1 c = none := by
  induction input generalizing l with
  | nil => simp [lexRun] at hr
  | cons d ds ih =>
    cases hf : feed l d with
    | none =>
      simp only [lexRun, hf] at he hr ⊢
      simp only [he, Bool.false_eq_true, if_false] at hr
      injection hr with h1 _
      rw [← h1]; exact hf
    | some l1 =>
      simp only [lexRun, hf] at he hr ⊢
      exact ih l1 he hr

/-- The scanner stops at white space at the latest: what follows the first white
space character does not matter to it. -/
theorem lexRun_sentinel (l : Lex) (t : List Char) (w : Char) (post : List Char)
    (hw : isspace w = true) :
    lexRun l (t ++ w :: post) = ((lexRun l (t ++ [w])).1, (lexRun l (t ++ [w])).2 ++ post) := by
  induction t generalizing l with
  | nil =>
    cases he : eats l.phase <;> simp [lexRun, feed_space l w hw, he]
  | cons c cs ih =>
    cases hf : feed l c with
    | none => cases he : eats l.phase <;> simp [lexRun, hf, he]
    | some l1 => simp only [List.cons_append, lexRun, hf]; exact ih l1

/-- After an item that was read to its end with no character lost, the scanner
goes on with what follows. -/
theorem lexRun_all (l : Lex) (item rest : List Char) (h : (lexRun l item).2 = [])
    (he : eats (lexRun l item).1.phase = false) :
    lexRun l (item ++ rest) = lexRun (lexRun l item).1 rest := by
  induction item generalizing l with
  | nil => simp [lexRun]
  | cons c cs ih =>
    cases hf : feed l c with
    | none =>
      simp only [lexRun, hf] at h he
      simp [he] at h
    | some l1 =>
      simp only [lexRun, hf] at h he
      simp only [List.cons_append, lexRun, hf]
      exact ih l1 h he

theorem dropWhile_token (t r : List Char) (hne : t ≠ []) (hns : ∀ c ∈ t, isspace c = false) :
    (t ++ r).dropWhile isspace = t ++ r := by
  obtain ⟨c, cs, rfl⟩ := List.exists_cons_of_ne_nil hne
  have hc : isspace c = false := hns c (by simp)
  simp [List.dropWhile, hc]

theorem scanf_rest (input : List Char) :
    (scanf_f input).rest = (lexRun Lex.init (input.dropWhile isspace)).2 := by
  unfold scanf_f
  by_cases h : input.dropWhile isspace = []
  · simp [h]
  · simp only [h, if_false]
    cases (lexRun Lex.init (input.dropWhile isspace)).1.number <;> rfl

/-- A stored value and the return value `1` go together, and the value stored is
the number at the head of the input, rounded. -/
theorem scanf_ret_one (input : List Char) (h : (scanf_f input).ret = 1) :
    ∃ x, scanNum input = some x ∧ (scanf_f input).value = some x.toF32 := by
  unfold scanf_f at h ⊢
  unfold scanNum
  by_cases hp : input.dropWhile isspace = []
  · exfalso
    simp [hp] at h
  · simp only [hp, if_false] at h ⊢
    cases hn : (lexRun Lex.init (input.dropWhile isspace)).1.number with
    | none => simp [hn] at h
    | some x => exact ⟨x, rfl, by simp⟩

theorem scanf_value_none (input : List Char) (h : (scanf_f input).ret ≠ 1) :
    (scanf_f input).value = none := by
  unfold scanf_f at h ⊢
  by_cases hp : input.dropWhile isspace = []
  · simp [hp]
  · simp only [hp, if_false] at h ⊢
    cases hn : (lexRun Lex.init (input.dropWhile isspace)).1.number with
    | none => rfl
    | some x => simp [hn] at h

theorem scanf_value_some (input : List Char) (v : F32) (h : (scanf_f input).value = some v) :
    (scanf_f input).ret = 1 := by
  by_contra hne
  rw [scanf_value_none input hne] at h
  cases h

theorem scanf_of_scanNum (input : List Char) (x : Num) (h : scanNum input = some x) :
    scanf_f input = ⟨1, some x.toF32, (scanf_f input).rest⟩ := by
  unfold scanNum at h
  have hp : input.dropWhile isspace ≠ [] := by
    intro hp
    rw [hp] at h
    simp [lexRun, Lex.number, Lex.init] at h
  simp only [scanf_f, hp, if_false, h]

theorem scanf_of_ret_one (input : List Char) (h : (scanf_f input).ret = 1) :
    ∃ v, scanf_f input = ⟨1, some v, (scanf_f input).rest⟩ := by
  obtain ⟨x, hx, _⟩ := scanf_ret_one input h
  exact ⟨x.toF32, scanf_of_scanNum input x hx⟩

/-- What one `scanf("%f")` call consumes: white space, then an item.  When the
call succeeds the item is not empty and has no white space, the item alone
scans to the same value, and the item followed by the first unread character
and anything else scans to that value as well, leaving that character unread. -/
theorem scanf_split (input : List Char) :
    ∃ ws item, input = ws ++ item ++ (scanf_f input).rest ∧ (∀ c ∈ ws, isspace c = true) ∧
      ((scanf_f input).ret = 1 → item ≠ [] ∧ (∀ c ∈ item, isspace c = false) ∧
        scanf_f item = ⟨1, (scanf_f input).value, []⟩ ∧
        ∀ c cs, (scanf_f input).rest = c :: cs →
          ∀ tail, scanf_f (item ++ c :: tail) = ⟨1, (scanf_f input).value, c :: tail⟩) := by
  obtain ⟨item, h1, h2, h3, h4⟩ := lexRun_split Lex.init (input.dropWhile isspace)
  refine ⟨input.takeWhile isspace, item, ?_, ?_, ?_⟩
  · rw [scanf_rest, List.append_assoc, ← h1, List.takeWhile_append_dropWhile]
  · intro c hc; exact List.mem_takeWhile_imp hc
  · intro hret
    obtain ⟨x, hx, hv⟩ := scanf_ret_one input hret
    have hx2 : (lexRun Lex.init (input.dropWhile isspace)).1.number = some x := hx
    have he := number_not_eats _ x hx2
    have hne : item ≠ [] := by
      intro hnil
      rw [h3 hnil] at hx2
      simp [Lex.number, Lex.init] at hx2
    have hns := h4 he
    have hd : ∀ r, (item ++ r).dropWhile isspace = item ++ r := fun r => dropWhile_token item r hne hns
    have hitem : scanNum item = some x := by
      unfold scanNum
      have := hd []
      rw [List.append_nil] at this
      rw [this, h2]; exact hx2
    refine ⟨hne, hns, ?_, ?_⟩
    · rw [scanf_of_scanNum item x hitem, hv, scanf_rest]
      have := hd []
      rw [List.append_nil] at this
      rw [this, h2]
    · intro c cs hrest tail
      rw [scanf_rest] at hrest
      have hstop := lexRun_stop _ _ c cs he hrest
      have hrun : lexRun Lex.init (item ++ c :: tail) =
          ((lexRun Lex.init (input.dropWhile isspace)).1, c :: tail) := by
        rw [lexRun_all Lex.init item (c :: tail) (by rw [h2]) (by rw [h2]; exact he), h2]
        simp [lexRun, hstop, he]
      have hnum : scanNum (item ++ c :: tail) = some x := by
        unfold scanNum
        rw [hd (c :: tail), hrun]; exact hx2
      rw [scanf_of_scanNum _ x hnum, hv, scanf_rest, hd (c :: tail), hrun]

theorem scanf_rest_length_le (input : List Char) : (scanf_f input).rest.length ≤ input.length := by
  obtain ⟨ws, item, h, _⟩ := scanf_split input
  have := congrArg List.length h
  simp only [List.length_append] at this
  omega

theorem scanf_rest_length_lt (input : List Char) (hret : (scanf_f input).ret = 1) :
    (scanf_f input).rest.length < input.length := by
  obtain ⟨ws, item, h, _, hne⟩ := scanf_split input
  have := congrArg List.length h
  have hpos : 0 < item.length := List.length_pos.mpr (hne hret).1
  simp only [List.length_append] at this
  omega

theorem scanf_skip_space (w input : List Char) (hw : ∀ c ∈ w, isspace c = true) :
    scanf_f (w ++ input) = scanf_f input := by
  have hd : (w ++ input).dropWhile isspace = input.dropWhile isspace := by
    induction w with
    | nil => rfl
    | cons c cs ih =>
      have hc : isspace c = true := hw c (by simp)
      simp only [List.cons_append, List.dropWhile_cons, hc, if_true]
      exact ih (fun x hx => hw x (by simp [hx]))
  simp only [scanf_f, hd]

/-- The scan of a token followed by white space does not depend on what comes
after that white space character: it is the scan of the token with that one
character after it, with the rest of the input left unread as well. -/
theorem scanf_token (t : List Char) (w : Char) (post : List Char) (ht : IsToken t)
    (hw : isspace w = true) :
    scanf_f (t ++ w :: post) =
      { ret := (scanf_f (t ++ [w])).ret, value := (scanf_f (t ++ [w])).value,
        rest := (scanf_f (t ++ [w])).rest ++ post } := by
  obtain ⟨hne, hns⟩ := ht
  have hd1 := dropWhile_token t (w :: post) hne hns
  have hd2 := dropWhile_token t [w] hne hns
  have hb1 : t ++ w :: post ≠ [] := by simp
  have hb2 : t ++ [w] ≠ [] := by simp
  simp only [scanf_f, hd1, hd2, lexRun_sentinel Lex.init t w post hw, hb1, hb2, if_false]
  cases (lexRun Lex.init (t ++ [w])).1.number <;> simp

/-- When the scan of a token leaves the white space after it unread, what it
leaves of the token itself holds no white space. -/
theorem scanf_token_rest (t : List Char) (w : Char) (ht : IsToken t)
    (h : (scanf_f (t ++ [w])).rest ≠ []) :
    ∃ r, (scanf_f (t ++ [w])).rest = r ++ [w] ∧ ∀ c ∈ r, isspace c = false := by
  obtain ⟨hne, hns⟩ := ht
  have hd := dropWhile_token t [w] hne hns
  rw [scanf_rest, hd] at h ⊢
  obtain ⟨item, h1, _⟩ := lexRun_split Lex.init (t ++ [w])
  rcases List.eq_nil_or_concat (lexRun Lex.init (t ++ [w])).2 with hnil | ⟨r, x, hr⟩
  · exact absurd hnil h
  · rw [hr] at h1 ⊢
    rw [List.concat_eq_append, ← List.append_assoc] at h1
    obtain ⟨h2, h3⟩ := List.append_inj' h1 rfl
    refine ⟨r, by rw [List.concat_eq_append, h3], ?_⟩
    intro c hc
    exact hns c (by rw [h2]; simp [hc])

set_option maxRecDepth 8000 in
/-- Some conversions: 0.1 and 10 as floats, a tie rounded to even, overflow,
the least subnormal, and what `scanf("%f")` makes of some inputs. -/
theorem scanf_samples :
    roundF32 false 1 10 = .finite false 13421773 (-27) ∧
    roundF32 false 10 1 = .finite false 10485760 (-20) ∧
    roundF32 false 16777217 1 = .finite false 8388608 1 ∧
    roundF32 false (10 ^ 39) 1 = .inf false ∧
    roundF32 false 1 (10 ^ 45) = .finite false 1 (-149) ∧
    scanf_f "  -2.5e1 x".toList = ⟨1, some (.finite true 13107200 (-19)), " x".toList⟩ ∧
    scanf_f "0x1.8p3\n".toList = ⟨1, some (.finite false 12582912 (-20)), ['\n']⟩ ∧
    scanf_f "Infinity\n".toList = ⟨1, some (.inf false), ['\n']⟩ ∧
    scanf_f "nan(1)\n".toList = ⟨1, some .nan, "(1)\n".toList⟩ ∧
    scanf_f "15e\n".toList = ⟨1, some (.finite false 15728640 (-20)), ['\n']⟩ ∧
    scanf_f "20euros\n".toList = ⟨1, some (.finite false 10485760 (-19)), "uros\n".toList⟩ ∧
    scanf_f "abc\n".toList = ⟨0, none, "abc\n".toList⟩ ∧
    scanf_f "-\n".toList = ⟨0, none, ['\n']⟩ ∧
    scanf_f "n\n15\n".toList = ⟨0, none, "15\n".toList⟩ ∧
    scanf_f "infix\n".toList = ⟨0, none, ['\n']⟩ ∧
    scanf_f " \n".toList = ⟨-1, none, []⟩ := by
  decide

/-! ## One iteration of the loop -/

/-- An iteration whose `scanf` stores a value above 10: prompt, success message,
the flag is cleared, the loop test fails and `main` returns 0. -/
theorem iter_high (s : State) (v : F32) (rest : List Char) (h : s.pc = .loop)
    (hf : s.invalid_number ≠ 0) (hs : scanf_f s.stdin = ⟨1, some v, rest⟩) (hv : v.gt 10 = true) :
    run 8 s = { pc := .halted, user_value := v, invalid_number := 0, stdin := rest,
                stdout := s.stdout ++ [promptMsg, successMsg v], exit := some 0,
                scanned := s.scanned ++ [v] } := by
  obtain ⟨pc, uv, flag, inp, out, ex, sc⟩ := s
  simp only at h hf hs
  subst h
  simp [run, step, hf, hs, hv]

/-- The same iteration stopped at its scan: after three statements the value is
stored and only the text after the number is left in the input. -/
theorem iter_scan_ok (s : State) (v : F32) (rest : List Char) (h : s.pc = .loop)
    (hf : s.invalid_number ≠ 0) (hs : scanf_f s.stdin = ⟨1, some v, rest⟩) :
    run 3 s = { s with pc := .test, user_value := v, stdin := rest,
                       stdout := s.stdout ++ [promptMsg], scanned := s.scanned ++ [v] } := by
  obtain ⟨pc, uv, flag, inp, out, ex, sc⟩ := s
  simp only at h hf hs
  subst h
  simp [run, step, hf, hs]

/-- An iteration whose `scanf` stores a value not above 10: prompt, the
below-threshold message, back to the loop test with the flag still set. -/
theorem iter_low (s : State) (v : F32) (rest : List Char) (h : s.pc = .loop)
    (hf : s.invalid_number ≠ 0) (hs : scanf_f s.stdin = ⟨1, some v, rest⟩) (hv : v.gt 10 = false) :
    run 5 s = { s with pc := .loop, user_value := v, stdin := rest,
                       stdout := s.stdout ++ [promptMsg, lowMsg], scanned := s.scanned ++ [v] } := by
  obtain ⟨pc, uv, flag, inp, out, ex, sc⟩ := s
  simp only at h hf hs
  subst h
  simp [run, step, hf, hs, hv]

/-- An iteration whose `scanf` fails, up to the clearing loop. -/
theorem iter_scan_fail (s : State) (h : s.pc = .loop) (hf : s.invalid_number ≠ 0)
    (hr : (scanf_f s.stdin).ret ≠ 1) :
    run 3 s = { s with pc := .clear, stdin := (scanf_f s.stdin).rest,
                       stdout := s.stdout ++ [promptMsg] } := by
  have hv := scanf_value_none s.stdin hr
  obtain ⟨pc, uv, flag, inp, out, ex, sc⟩ := s
  simp only at h hf hr hv
  subst h
  simp [run, step, hf, hr, hv]

/-- An iteration whose `scanf` fails while a newline is still to come: prompt,
the rest of the line is dropped, the invalid-input message, back to the loop
test.  The value, the flag and the record of stored values are untouched. -/
theorem iter_fail (s : State) (pre post : List Char) (h : s.pc = .loop)
    (hf : s.invalid_number ≠ 0) (hr : (scanf_f s.stdin).ret ≠ 1)
    (hrest : (scanf_f s.stdin).rest = pre ++ '\n' :: post) (hpre : '\n' ∉ pre) :
    run (pre.length + 5) s = { s with pc := .loop, stdin := post,
                                      stdout := s.stdout ++ [promptMsg, invalidMsg] } := by
  have e : pre.length + 5 = 3 + ((pre.length + 1) + 1) := by omega
  rw [e, run_add, iter_scan_fail s h hf hr, run_add, run_clear pre post _ rfl hrest hpre]
  simp [run, step]

/-- An iteration whose `scanf` fails with no newline left in the input: the
clearing loop reads to the end of the input and stays there. -/
theorem iter_stuck (s : State) (h : s.pc = .loop) (hf : s.invalid_number ≠ 0)
    (hr : (scanf_f s.stdin).ret ≠ 1) (hrest : '\n' ∉ (scanf_f s.stdin).rest) (n : Nat) :
    run ((scanf_f s.stdin).rest.length + 3 + n) s =
      { s with pc := .clear, stdin := [], stdout := s.stdout ++ [promptMsg] } := by
  have e : (scanf_f s.stdin).rest.length + 3 + n = 3 + ((scanf_f s.stdin).rest.length + n) := by omega
  rw [e, run_add, iter_scan_fail s h hf hr]
  generalize (scanf_f s.stdin).rest = r at hrest
  induction r with
  | nil => simp only [List.length_nil, Nat.zero_add]; exact run_clear_eof n _ rfl rfl
  | cons c cs ih =>
    have hc : c ≠ '\n' := fun hc => hrest (by simp [hc])
    have hcs : '\n' ∉ cs := fun hm => hrest (by simp [hm])
    have e2 : (c :: cs).length + n = (cs.length + n) + 1 := by simp; omega
    rw [e2]
    simp only [run]
    have : step { s with pc := .clear, stdin := c :: cs, stdout := s.stdout ++ [promptMsg] } =
        { s with pc := .clear, stdin := cs, stdout := s.stdout ++ [promptMsg] } := by
      simp [step, getchar, newline_toNat, hc]
    rw [this]
    exact ih hcs

/-! ## Rounding to single precision -/

theorem log2Fuel_spec (fuel n : Nat) (hn : n ≤ fuel) (h0 : n ≠ 0) :
    2 ^ log2Fuel fuel n ≤ n ∧ n < 2 ^ (log2Fuel fuel n + 1) := by
  induction fuel generalizing n with
  | zero => omega
  | succ fuel ih =>
    unfold log2Fuel
    by_cases h2 : 2 ≤ n
    · simp only [h2, if_true]
      have hdiv : n / 2 ≤ fuel := by omega
      have hne : n / 2 ≠ 0 := by omega
      obtain ⟨h3, h4⟩ := ih (n / 2) hdiv hne
      constructor
      · rw [pow_succ]; omega
      · rw [pow_succ]; omega
    · simp only [h2, if_false]
      constructor <;> simp <;> omega

theorem ilog2_spec (n : Nat) (h0 : n ≠ 0) : 2 ^ ilog2 n ≤ n ∧ n < 2 ^ (ilog2 n + 1) :=
  log2Fuel_spec n n (Nat.le_refl n) h0

/-- Rounding a quotient that is at most `K` never gives more than `K`. -/
theorem divRne_le (x d K : Nat) (hd : 0 < d) (h : x ≤ K * d) : divRne x d ≤ K := by
  unfold divRne
  have hq : x / d ≤ K := Nat.div_le_of_le_mul (by rw [Nat.mul_comm]; exact h)
  by_cases hlt : x / d < K
  · simp only; split_ifs <;> omega
  · have hK : x / d = K := by omega
    have hm := Nat.div_add_mod x d
    rw [hK, Nat.mul_comm] at hm
    have hr : x % d = 0 := by omega
    simp [hr, hK, hd]

/-- The rounded quotient is within half a unit of the exact one. -/
theorem divRne_nearest (n d : Nat) (hd : 0 < d) :
    2 * (divRne n d * d) ≤ 2 * n + d ∧ 2 * n ≤ 2 * (divRne n d * d) + d := by
  have hm := Nat.div_add_mod n d
  have hr := Nat.mod_lt n hd
  have h1 : (n / d + 1) * d = d * (n / d) + d := by ring
  have h2 : n / d * d = d * (n / d) := by ring
  unfold divRne
  simp only
  split_ifs <;> simp only [h1, h2] <;> omega

/-- The hundredths printed by `%.2f` are within half a hundredth of the float. -/
theorem hundredths_nearest (m : Nat) (e : Int) :
    |((hundredths m e : ℚ) / 100) - (m : ℚ) * (2 : ℚ) ^ e| ≤ 1 / 200 := by
  unfold hundredths
  by_cases he : 0 ≤ e
  · obtain ⟨k, rfl⟩ := Int.eq_ofNat_of_zero_le he
    simp
  · simp only [he, if_false]
    obtain ⟨k, hk⟩ : ∃ k : Nat, e = -(k : Int) := ⟨(-e).toNat, by omega⟩
    subst hk
    simp only [neg_neg, Int.toNat_ofNat, zpow_neg, zpow_natCast]
    obtain ⟨h1, h2⟩ := divRne_nearest (m * 100) (2 ^ k) (by positivity)
    have h1q : (2 : ℚ) * ((divRne (m * 100) (2 ^ k) : ℚ) * 2 ^ k) ≤ 2 * ((m : ℚ) * 100) + 2 ^ k := by
      exact_mod_cast h1
    have h2q : (2 : ℚ) * ((m : ℚ) * 100) ≤ 2 * ((divRne (m * 100) (2 ^ k) : ℚ) * 2 ^ k) + 2 ^ k := by
      exact_mod_cast h2
    have hp : (0 : ℚ) < 2 ^ k := by positivity
    have key : (divRne (m * 100) (2 ^ k) : ℚ) / 100 - (m : ℚ) * ((2 : ℚ) ^ k)⁻¹ =
        (2 * ((divRne (m * 100) (2 ^ k) : ℚ) * 2 ^ k) - 2 * ((m : ℚ) * 100)) / (200 * 2 ^ k) := by
      field_simp; ring
    rw [key, abs_le]
    constructor
    · rw [le_div_iff₀ (by positivity)]; linarith
    · rw [div_le_iff₀ (by positivity)]; linarith

/-- Rounding to single precision does not lift a number that is at most 10
above 10 (10 is itself a float). -/
theorem roundF32_gt_false (neg : Bool) (n d : Nat) (hd : 0 < d) (h : n ≤ 10 * d) :
    (roundF32 neg n d).gt 10 = false := by
  unfold roundF32
  by_cases hn : n = 0
  · subst hn; cases neg <;> simp [F32.gt]
  · simp only [hn, if_false]
    obtain ⟨hn1, _⟩ := ilog2_spec n hn
    obtain ⟨_, hd2⟩ := ilog2_spec d (by omega)
    have hlog : ilog2 n < ilog2 d + 5 := by
      have h16 : n < 2 ^ (ilog2 d + 5) := by
        have : 2 ^ (ilog2 d + 5) = 2 ^ (ilog2 d + 1) * 16 := by
          rw [show ilog2 d + 5 = (ilog2 d + 1) + 4 by omega, pow_add]; norm_num
        omega
      exact (Nat.pow_lt_pow_iff_right (by norm_num : 1 < 2)).mp (lt_of_le_of_lt hn1 h16)
    have he : (if pow2Le ((ilog2 n : Int) - (ilog2 d : Int)) n d = true then
        (ilog2 n : Int) - (ilog2 d : Int) else (ilog2 n : Int) - (ilog2 d : Int) - 1) ≤ 3 := by
      split_ifs with hp
      · by_contra hcon
        have e4 : (ilog2 n : Int) - (ilog2 d : Int) = 4 := by omega
        rw [e4] at hp
        simp [pow2Le] at hp
        omega
      · omega
    generalize (if pow2Le ((ilog2 n : Int) - (ilog2 d : Int)) n d = true then
        (ilog2 n : Int) - (ilog2 d : Int) else (ilog2 n : Int) - (ilog2 d : Int) - 1) = e at he ⊢
    have hq : max e (-126) - 23 ≤ -20 := by
      have : max e (-126) ≤ 3 := max_le he (by norm_num)
      omega
    generalize max e (-126) - 23 = q at hq ⊢
    have hq0 : ¬ (0 ≤ q) := by omega
    have hov : ¬ (104 < q ∨ (q = 104 ∧ 2 ^ 24 ≤ divRne (n * 2 ^ (-q).toNat) d)) := by
      rintro (h1 | ⟨h1, _⟩) <;> omega
    simp only [hq0, if_false] at hov ⊢
    rw [if_neg hov]
    cases neg
    · simp only [F32.gt, hq0, if_false, decide_eq_false_iff_not, not_lt]
      apply divRne_le _ _ _ hd
      calc n * 2 ^ (-q).toNat ≤ 10 * d * 2 ^ (-q).toNat := Nat.mul_le_mul_right _ h
        _ = 10 * 2 ^ (-q).toNat * d := by ring
    · rfl

/-- A number that is at most 10 is stored as a float that is not above 10. -/
theorem toF32_gt_false (x : Num) (hd : ∀ neg n d, x = .quot neg n d → 0 < d) (h : x.le 10 = true) :
    x.toF32.gt 10 = false := by
  cases x with
  | quot neg n d =>
    cases neg
    · simp only [Num.le, decide_eq_true_eq] at h
      exact roundF32_gt_false false n d (hd _ _ _ rfl) h
    · unfold Num.toF32 roundF32
      simp only
      split_ifs <;> rfl
  | inf neg => simp only [Num.le] at h; subst h; rfl
  | nan => simp [Num.le] at h

/-- The numbers the scanner produces have a positive denominator. -/
theorem number_den_pos (l : Lex) (neg : Bool) (n d : Nat) (h : l.number = some (.quot neg n d)) :
    0 < d := by
  obtain ⟨ph, ng, mant, fd, en, ex⟩ := l
  have hquot : ∀ (c : Prop) [Decidable c] (a b e : Nat),
      (if c then Num.quot ng a 1 else Num.quot ng b e) = Num.quot neg n d → 0 < e → 0 < d := by
    intro c _ a b e hif he
    split_ifs at hif <;> injection hif with _ _ h3 <;> omega
  cases ph <;> simp only [Lex.number] at h
  case zero => exact hquot _ _ _ _ (Option.some.inj h) (by positivity)
  case int => exact hquot _ _ _ _ (Option.some.inj h) (by positivity)
  case frac => exact hquot _ _ _ _ (Option.some.inj h) (by positivity)
  case expMark => exact hquot _ _ _ _ (Option.some.inj h) (by positivity)
  case expSign => exact hquot _ _ _ _ (Option.some.inj h) (by positivity)
  case exp => exact hquot _ _ _ _ (Option.some.inj h) (by positivity)
  case hexInt => exact hquot _ _ _ _ (Option.some.inj h) (by positivity)
  case hexPoint => exact hquot _ _ _ _ (Option.some.inj h) (by positivity)
  case hexFrac => exact hquot _ _ _ _ (Option.some.inj h) (by positivity)
  case hexExpMark => exact hquot _ _ _ _ (Option.some.inj h) (by positivity)
  case hexExpSign => exact hquot _ _ _ _ (Option.some.inj h) (by positivity)
  case hexExp => exact hquot _ _ _ _ (Option.some.inj h) (by positivity)
  case infinity k => split_ifs at h; cases h
  case nan k => split_ifs at h; cases h
  all_goals cases h

theorem scanNum_den_pos (input : List Char) (neg : Bool) (n d : Nat)
    (h : scanNum input = some (.quot neg n d)) : 0 < d :=
  number_den_pos _ neg n d h

/-! ## Invariant of the loop -/

theorem plain_append {out : List (List Char)} {m : List Char} (h : Plain out)
    (hm : m = promptMsg ∨ m = invalidMsg ∨ m = lowMsg) : Plain (out ++ [m]) := by
  intro x hx
  rcases List.mem_append.mp hx with hx | hx
  · exact h x hx
  · rw [List.mem_singleton.mp hx]; exact hm

theorem rejected_append {vs : List F32} {v : F32} (h : Rejected vs) (hv : v.gt 10 = false) :
    Rejected (vs ++ [v]) := by
  intro x hx
  rcases List.mem_append.mp hx with hx | hx
  · exact h x hx
  · rw [List.mem_singleton.mp hx]; exact hv

theorem inv_init (v0 : F32) (input : List Char) : Inv (init v0 input) := by
  left
  refine ⟨by simp [init], rfl, ?_, ?_⟩
  · intro m hm; simp [init] at hm
  · intro u hu; simp [init] at hu

theorem inv_step (s : State) (h : Inv s) : Inv (step s) := by
  obtain ⟨pc, uv, flag, inp, out, ex, sc⟩ := s
  cases pc
  case loop =>
    rcases h with h | ⟨hf, hex, hacc⟩
    · have hf : flag ≠ 0 := h.1
      simp only [step, hf, ne_eq, not_false_eq_true, if_true]
      exact h
    · simp only at hf
      subst hf
      simp only [step, ne_eq, not_true_eq_false, if_false]
      exact ⟨hex, hacc⟩
  case prompt =>
    obtain ⟨h1, h2, h3, h4⟩ := h
    exact ⟨h1, h2, plain_append h3 (Or.inl rfl), h4⟩
  case scan =>
    obtain ⟨h1, h2, h3, h4⟩ := h
    by_cases hr : (scanf_f inp).ret = 1
    · obtain ⟨x, _, hv⟩ := scanf_ret_one inp hr
      simp only [step, hv, hr, ne_eq, not_true_eq_false, if_false]
      exact ⟨h1, h2, h3, sc, rfl, h4⟩
    · have hv := scanf_value_none inp hr
      simp only [step, hv, hr, ne_eq, not_false_eq_true, if_true]
      exact ⟨h1, h2, h3, h4⟩
  case clear =>
    obtain ⟨h1, h2, h3, h4⟩ := h
    simp only [step]
    split_ifs <;> exact ⟨h1, h2, h3, h4⟩
  case invalid =>
    obtain ⟨h1, h2, h3, h4⟩ := h
    exact Or.inl ⟨h1, h2, plain_append h3 (Or.inr (Or.inl rfl)), h4⟩
  case test =>
    obtain ⟨h1, h2, h3, vs, h4, h5⟩ := h
    cases hg : uv.gt 10
    · simp only [step, hg, Bool.false_eq_true, if_false]
      refine ⟨h1, h2, h3, ?_⟩
      simp only at h4
      rw [h4]
      exact rejected_append h5 hg
    · simp only [step, hg, if_true]
      exact ⟨⟨h1, h2, h3, vs, h4, h5⟩, hg⟩
  case success =>
    obtain ⟨⟨h1, h2, h3, vs, h4, h5⟩, hg⟩ := h
    exact ⟨h2, out, vs, uv, rfl, h3, h4, h5, hg⟩
  case clearFlag =>
    obtain ⟨h2, hacc⟩ := h
    exact Or.inr ⟨rfl, h2, hacc⟩
  case low =>
    obtain ⟨h1, h2, h3, h4⟩ := h
    exact Or.inl ⟨h1, h2, plain_append h3 (Or.inr (Or.inr rfl)), h4⟩
  case ret =>
    obtain ⟨_, hacc⟩ := h
    exact ⟨rfl, hacc⟩
  case halted => exact h

theorem inv_run (n : Nat) (s : State) (h : Inv s) : Inv (run n s) := by
  induction n generalizing s with
  | zero => exact h
  | succ n ih => exact ih (step s) (inv_step s h)

/-- The success message differs from the three other messages. -/
theorem successMsg_ne (w : F32) :
    promptMsg ≠ successMsg w ∧ invalidMsg ≠ successMsg w ∧ lowMsg ≠ successMsg w := by
  have hs : (successMsg w).take 4 = ['T', 'h', 'a', 'n'] := rfl
  refine ⟨?_, ?_, ?_⟩ <;> intro h <;> rw [← h] at hs <;> revert hs <;> decide

theorem plain_no_success {pre : List (List Char)} (h : Plain pre) :
    ∀ m ∈ pre, ∀ w, m ≠ successMsg w := by
  intro m hm w
  obtain ⟨h1, h2, h3⟩ := successMsg_ne w
  rcases h m hm with rfl | rfl | rfl <;> assumption

/-! ## Independence from the uninitialised local -/

theorem sameBut_step (s t : State) (h : SameBut s t) : SameBut (step s) (step t) := by
  obtain ⟨pc, uv, flag, inp, out, ex, sc⟩ := s
  obtain ⟨pc2, uv2, flag2, inp2, out2, ex2, sc2⟩ := t
  obtain ⟨h1, h2, h3, h4, h5, h6, h7⟩ := h
  simp only at h1 h2 h3 h4 h5 h6 h7
  subst h1 h2 h3 h4 h5 h6
  cases pc
  case scan =>
    by_cases hr : (scanf_f inp).ret = 1
    · obtain ⟨x, _, hv⟩ := scanf_ret_one inp hr
      simp [step, hv, hr, SameBut]
    · have hv := scanf_value_none inp hr
      simp [step, hv, hr, SameBut]
  case test =>
    have hu : uv = uv2 := h7 (Or.inl rfl)
    subst hu
    simp only [step, SameBut]
    split_ifs <;> simp
  case success =>
    have hu : uv = uv2 := h7 (Or.inr rfl)
    subst hu
    simp [step, SameBut]
  case loop => simp only [step, SameBut]; split_ifs <;> simp
  case clear => simp only [step, SameBut]; split_ifs <;> simp
  all_goals simp [step, SameBut]

theorem sameBut_run (n : Nat) (s t : State) (h : SameBut s t) : SameBut (run n s) (run n t) := by
  induction n generalizing s t with
  | zero => exact h
  | succ n ih => exact ih (step s) (step t) (sameBut_step s t h)

/-! ## Progress of the loop -/

theorem split_at_newline (l : List Char) (h : '\n' ∈ l) :
    ∃ pre post, l = pre ++ '\n' :: post ∧ '\n' ∉ pre := by
  induction l with
  | nil => simp at h
  | cons c cs ih =>
    by_cases hc : c = '\n'
    · exact ⟨[], cs, by simp [hc], by simp⟩
    · have hm : '\n' ∈ cs := by
        rcases List.mem_cons.mp h with h1 | h1
        · exact absurd h1.symm hc
        · exact h1
      obtain ⟨pre, post, h1, h2⟩ := ih hm
      refine ⟨c :: pre, post, by simp [h1], ?_⟩
      intro hmem
      rcases List.mem_cons.mp hmem with h3 | h3
      · exact hc h3.symm
      · exact h2 h3

/-- From the loop test with the flag set, either some value above 10 gets
stored, or the run reaches the clearing loop with the input exhausted. -/
theorem progress (k : Nat) : ∀ s : State, s.stdin.length ≤ k → s.pc = .loop → s.invalid_number ≠ 0 →
    (∃ n v, v ∈ (run n s).scanned ∧ v.gt 10 = true) ∨
      (∃ N, (run N s).pc = .clear ∧ (run N s).stdin = []) := by
  induction k with
  | zero =>
    intro s hlen h hf
    by_cases hr : (scanf_f s.stdin).ret = 1
    · have := scanf_rest_length_lt s.stdin hr
      omega
    · right
      have hle := scanf_rest_length_le s.stdin
      have hnil : (scanf_f s.stdin).rest = [] := List.length_eq_zero.mp (by omega)
      have := iter_stuck s h hf hr (by rw [hnil]; simp) 0
      exact ⟨_, by rw [this], by rw [this]⟩
  | succ k ih =>
    intro s hlen h hf
    by_cases hr : (scanf_f s.stdin).ret = 1
    · obtain ⟨v, hs⟩ := scanf_of_ret_one s.stdin hr
      cases hg : v.gt 10
      · have h5 := iter_low s v _ h hf hs hg
        have hlt := scanf_rest_length_lt s.stdin hr
        rcases ih (run 5 s) (by rw [h5]; simp only; omega) (by rw [h5]) (by rw [h5]; exact hf) with
          ⟨n, u, hu, hgu⟩ | ⟨N, hN1, hN2⟩
        · left; exact ⟨5 + n, u, by rw [run_add]; exact hu, hgu⟩
        · right; exact ⟨5 + N, by rw [run_add]; exact hN1, by rw [run_add]; exact hN2⟩
      · left
        refine ⟨3, v, ?_, hg⟩
        rw [iter_scan_ok s v _ h hf hs]
        simp
    · by_cases hnl : '\n' ∈ (scanf_f s.stdin).rest
      · obtain ⟨pre, post, hsplit, hpre⟩ := split_at_newline _ hnl
        have hI := iter_fail s pre post h hf hr hsplit hpre
        have hle := scanf_rest_length_le s.stdin
        have hlen2 : post.length < (scanf_f s.stdin).rest.length := by
          rw [hsplit]; simp; omega
        rcases ih (run (pre.length + 5) s) (by rw [hI]; simp only; omega) (by rw [hI])
          (by rw [hI]; exact hf) with ⟨n, u, hu, hgu⟩ | ⟨N, hN1, hN2⟩
        · left; exact ⟨pre.length + 5 + n, u, by rw [run_add]; exact hu, hgu⟩
        · right
          exact ⟨pre.length + 5 + N, by rw [run_add]; exact hN1, by rw [run_add]; exact hN2⟩
      · right
        have := iter_stuck s h hf hr hnl 0
        exact ⟨_, by rw [this], by rw [this]⟩

/-! ## Further helpers -/

/-- Once the clearing loop is reached with the input exhausted, the state is
final. -/
theorem stuck_from (s : State) (N n : Nat) (h1 : (run N s).pc = .clear)
    (h2 : (run N s).stdin = []) (hn : N ≤ n) : run n s = run N s := by
  obtain ⟨k, rfl⟩ := Nat.exists_eq_add_of_le hn
  rw [run_add]; exact run_clear_eof k _ h1 h2

/-- While `main` has not returned there is no exit status. -/
theorem inv_exit_none (s : State) (h : Inv s) (hpc : s.pc ≠ .halted) : s.exit = none := by
  obtain ⟨pc, uv, flag, inp, out, ex, sc⟩ := s
  cases pc
  case loop =>
    rcases h with h | h
    · exact h.2.1
    · exact h.2.1
  case halted => exact absurd rfl hpc
  case test => exact h.2.1
  case success => exact h.1.2.1
  case clearFlag => exact h.1
  case ret => exact h.1
  all_goals exact h.2.1

theorem twoDigits_digits (n : Nat) :
    ∃ d1 d2 : Char, twoDigits n = [d1, d2] ∧ d1.isDigit = true ∧ d2.isDigit = true := by
  have key : ∀ r, r < 10 → (Char.ofNat (48 + r)).isDigit = true := by decide
  exact ⟨_, _, rfl, key _ (Nat.mod_lt _ (by norm_num)), key _ (Nat.mod_lt _ (by norm_num))⟩

/-- A token whose first character cannot begin a number (it is not a sign, a
digit, the point, `n` or `i`) is rejected with nothing consumed. -/
theorem unparsed_of_head (c : Char) (cs : List Char) (ht : IsToken (c :: cs))
    (hc : feed Lex.init c = none) :
    Unparsed (c :: cs) ∧ scanf_f (c :: cs ++ ['\n']) = ⟨0, none, c :: cs ++ ['\n']⟩ := by
  have hd := dropWhile_token (c :: cs) ['\n'] ht.1 ht.2
  have hrun : lexRun Lex.init (c :: cs ++ ['\n']) = (Lex.init, c :: cs ++ ['\n']) := by
    have he : eats Lex.init.phase = false := rfl
    simp only [List.cons_append, lexRun, hc, he, Bool.false_eq_true, if_false]
    rfl
  have hs : scanf_f (c :: cs ++ ['\n']) = ⟨0, none, c :: cs ++ ['\n']⟩ := by
    simp only [scanf_f, hd, hrun]
    simp [Lex.number, Lex.init]
  refine ⟨⟨?_, ?_⟩, hs⟩
  · rw [hs]
  · rw [hs]; simp

/-- After a failed scan of an unparsed token, the unread input is what is left
of the token, the line terminator and the following lines. -/
theorem scanf_unparsed (t post : List Char) (ht : IsToken t) (hbad : Unparsed t) :
    (scanf_f (t ++ '\n' :: post)).ret ≠ 1 ∧
    ∃ pre, (scanf_f (t ++ '\n' :: post)).rest = pre ++ '\n' :: post ∧ '\n' ∉ pre := by
  obtain ⟨h0, hne⟩ := hbad
  obtain ⟨r, hr, hns⟩ := scanf_token_rest t '\n' ht hne
  rw [scanf_token t '\n' post ht (by decide)]
  refine ⟨by simp only; rw [h0]; decide, r, by simp [hr], ?_⟩
  intro hm
  have := hns '\n' hm
  revert this; decide

/-- The scan of a token that is consumed whole, in front of further lines. -/
theorem scanf_parsed (t post : List Char) (v : F32) (ht : IsToken t) (hp : ParsedAs t v) :
    scanf_f (t ++ '\n' :: post) = ⟨1, some v, '\n' :: post⟩ := by
  unfold ParsedAs at hp
  rw [scanf_token t '\n' post ht (by decide), hp]
  rfl

/-- The run over lines of one token each, the last of which is accepted. -/
theorem transcript_run (t tail : List Char) (v : F32) (ht : IsToken t)
    (hscan : ParsedAs t v) (hv : v.gt 10 = true) (toks : List (List Char)) :
    ∀ (s : State) (w : List Char), s.pc = .loop → s.invalid_number ≠ 0 →
      (∀ c ∈ w, isspace c = true) → s.stdin = w ++ (joinLines toks ++ (t ++ '\n' :: tail)) →
      (∀ x ∈ toks, IsToken x ∧ (Unparsed x ∨ ∃ u, ParsedAs x u ∧ u.gt 10 = false)) →
      ∃ n, (run n s).pc = .halted ∧ (run n s).exit = some 0 ∧
        (run n s).stdout = s.stdout ++ (transcript toks ++ [promptMsg, successMsg v]) := by
  induction toks with
  | nil =>
    intro s w hpc hf hw hin _
    have hs : scanf_f s.stdin = ⟨1, some v, '\n' :: tail⟩ := by
      rw [hin]
      simp only [joinLines, List.nil_append]
      rw [scanf_skip_space w _ hw, scanf_parsed t tail v ht hscan]
    refine ⟨8, ?_, ?_, ?_⟩ <;> rw [iter_high s v _ hpc hf hs hv]
    simp [transcript]
  | cons x xs ih =>
    intro s w hpc hf hw hin hall
    obtain ⟨hx, hkind⟩ := hall x (by simp)
    have hall2 : ∀ y ∈ xs, IsToken y ∧ (Unparsed y ∨ ∃ u, ParsedAs y u ∧ u.gt 10 = false) :=
      fun y hy => hall y (by simp [hy])
    have hin2 : scanf_f s.stdin = scanf_f (x ++ '\n' :: (joinLines xs ++ (t ++ '\n' :: tail))) := by
      rw [hin]
      simp only [joinLines, List.append_assoc, List.cons_append]
      rw [scanf_skip_space w _ hw]
    rcases hkind with hbad | ⟨u, hu, hgu⟩
    · obtain ⟨hr, pre, hrest, hpre⟩ := scanf_unparsed x (joinLines xs ++ (t ++ '\n' :: tail)) hx hbad
      rw [← hin2] at hr hrest
      have hI := iter_fail s _ _ hpc hf hr hrest hpre
      obtain ⟨n, h1, h2, h3⟩ := ih (run (pre.length + 5) s) []
        (by rw [hI]) (by rw [hI]; exact hf) (by simp) (by rw [hI]; rfl) hall2
      refine ⟨pre.length + 5 + n, ?_, ?_, ?_⟩
      · rw [run_add]; exact h1
      · rw [run_add]; exact h2
      · rw [run_add, h3, hI]
        have hm : tokenMsg x = invalidMsg := by
          unfold tokenMsg; rw [hbad.1]; rfl
        simp [transcript, hm]
        rfl
    · have hs2 : scanf_f s.stdin = ⟨1, some u, '\n' :: (joinLines xs ++ (t ++ '\n' :: tail))⟩ := by
        rw [hin2, scanf_parsed x _ u hx hu]
      have hI := iter_low s u _ hpc hf hs2 hgu
      obtain ⟨n, h1, h2, h3⟩ := ih (run 5 s) ['\n']
        (by rw [hI]) (by rw [hI]; exact hf) (by decide) (by rw [hI]; rfl) hall2
      refine ⟨5 + n, ?_, ?_, ?_⟩
      · rw [run_add]; exact h1
      · rw [run_add]; exact h2
      · rw [run_add, h3, hI]
        have hm : tokenMsg x = lowMsg := by
          unfold tokenMsg; unfold ParsedAs at hu; rw [hu]; rfl
        simp [transcript, hm]
        rfl

/-- Two ways of cutting a list at its first newline agree. -/
theorem first_newline_unique (a b c d : List Char) (h : a ++ '\n' :: b = c ++ '\n' :: d)
    (ha : '\n' ∉ a) (hc : '\n' ∉ c) : a = c ∧ b = d := by
  induction a generalizing c with
  | nil =>
    cases c with
    | nil => simpa using h
    | cons y ys =>
      simp only [List.nil_append, List.cons_append, List.cons.injEq] at h
      exact absurd (List.mem_cons.mpr (Or.inl h.1)) hc
  | cons x xs ih =>
    cases c with
    | nil =>
      simp only [List.nil_append, List.cons_append, List.cons.injEq] at h
      exact absurd (List.mem_cons.mpr (Or.inl h.1.symm)) ha
    | cons y ys =>
      simp only [List.cons_append, List.cons.injEq] at h
      obtain ⟨h1, h2⟩ := ih ys h.2 (fun hm => ha (by simp [hm])) (fun hm => hc (by simp [hm]))
      exact ⟨by rw [h.1, h1], h2⟩

/-- The input `5\n` never gets a value above 10 stored. -/
theorem five_never_accepted :
    ∀ n, ∀ u ∈ (run n (init .nan "5\n".toList)).scanned, u.gt 10 = false := by
  intro n
  by_cases hn : n < 8
  · interval_cases n <;> decide
  · rw [stuck_from _ 8 n (by decide) (by decide) (by omega)]
    decide

/-! ## The specification's claims -/

/-- C1, as stated, fails: the token `10.0000001` is a number greater than 10,
but the `float` nearest to it is 10, so the iteration that reads it prints the
below-threshold message and the loop goes on with the flag still set. -/
theorem C1_rounding_counterexample :
    scanNum "10.0000001\n".toList = some (.quot false 100000001 10000000) ∧
    (Num.quot false 100000001 10000000).gt 10 = true ∧
    run 5 (init .nan "10.0000001\n".toList) =
      { pc := .loop, user_value := .finite false 10485760 (-20), invalid_number := 1,
        stdin := ['\n'],
        stdout := ["Please enter a number above 10: ".toList,
                   "That doesn't fit! Try again!\n".toList],
        exit := none,
        scanned := [.finite false 10485760 (-20)] } := by
  decide

/-- C1, amended: when the number at the head of the input is stored as a
`float` greater than 10, the iteration prints the prompt and then exactly the
success message for that float, clears the flag and `main` returns 0, with the
input after the number unread.  For a finite float the number is printed as an
integer part, a point and two digits, which give the float to the nearest
hundredth. -/
theorem C1_accepts_float_above_10 (s : State) (v : F32) (rest : List Char)
    (hpc : s.pc = .loop) (hflag : s.invalid_number ≠ 0)
    (hscan : scanf_f s.stdin = ⟨1, some v, rest⟩) (hv : v.gt 10 = true) :
    run 8 s = { pc := .halted, user_value := v, invalid_number := 0, stdin := rest,
                stdout := s.stdout ++ ["Please enter a number above 10: ".toList,
                                       ("Thanks, that works! ".toList ++ fmt2f v ++ " is a great choice!\n".toList)],
                exit := some 0,
                scanned := s.scanned ++ [v] } ∧
    (∀ m e, v = .finite false m e → ∃ d1 d2 : Char,
      fmt2f v = Nat.toDigits 10 (hundredths m e / 100) ++ ['.', d1, d2] ∧
        [d1, d2] = twoDigits (hundredths m e % 100) ∧ d1.isDigit = true ∧ d2.isDigit = true ∧
        |((hundredths m e : ℚ) / 100) - (m : ℚ) * (2 : ℚ) ^ e| ≤ 1 / 200) := by
  refine ⟨iter_high s v rest hpc hflag hscan hv, ?_⟩
  rintro m e rfl
  obtain ⟨d1, d2, h1, h2, h3⟩ := twoDigits_digits (hundredths m e % 100)
  exact ⟨d1, d2, by simp [fmt2f, h1], h1.symm, h2, h3, hundredths_nearest m e⟩

/-- C1, amended, on the input `11`: the first iteration prints the prompt and
`Thanks, that works! 11.00 is a great choice!` and `main` returns 0. -/
theorem C1_accepts_float_above_10_witness :
    ("Thanks, that works! ".toList ++ fmt2f (.finite false 11534336 (-20)) ++
        " is a great choice!\n".toList) = "Thanks, that works! 11.00 is a great choice!\n".toList ∧
    run 8 (init .nan "11\n".toList) =
      { pc := .halted, user_value := .finite false 11534336 (-20), invalid_number := 0,
        stdin := ['\n'],
        stdout := (init .nan "11\n".toList).stdout ++
          ["Please enter a number above 10: ".toList, ("Thanks, that works! ".toList ++
              fmt2f (.finite false 11534336 (-20)) ++ " is a great choice!\n".toList)],
        exit := some 0,
        scanned := (init .nan "11\n".toList).scanned ++ [.finite false 11534336 (-20)] } :=
  ⟨by decide,
   (C1_accepts_float_above_10 (init .nan "11\n".toList) (.finite false 11534336 (-20)) ['\n']
      rfl (by decide) (by decide) (by decide)).1⟩

/-- C2: when the number at the head of the input is at most 10 (10 included),
the iteration that reads it prints the prompt and then exactly
`That doesn't fit! Try again!` with its newline, no success message, leaves the
flag set, and the next iteration starts by printing the prompt again; `main`
has not returned. -/
theorem C2_at_most_10_reprompts (s : State) (x : Num)
    (hpc : s.pc = .loop) (hflag : s.invalid_number ≠ 0)
    (hnum : scanNum s.stdin = some x) (hle : x.le 10 = true) :
    run 5 s =
      { s with pc := .loop, user_value := x.toF32, stdin := (scanf_f s.stdin).rest,
               stdout := s.stdout ++ ["Please enter a number above 10: ".toList,
                                      "That doesn't fit! Try again!\n".toList],
               scanned := s.scanned ++ [x.toF32] } ∧
    (run 7 s).pc = .scan ∧
    (run 7 s).stdout = s.stdout ++ ["Please enter a number above 10: ".toList,
        "That doesn't fit! Try again!\n".toList, "Please enter a number above 10: ".toList] ∧
    (∀ k, k ≤ 7 → (run k s).pc ≠ .halted) := by
  have hs := scanf_of_scanNum s.stdin x hnum
  have hg : x.toF32.gt 10 = false :=
    toF32_gt_false x (fun neg n d hx => scanNum_den_pos s.stdin neg n d (hx ▸ hnum)) hle
  have h5 := iter_low s x.toF32 _ hpc hflag hs hg
  have h7 : run 7 s =
      { s with pc := .scan, user_value := x.toF32, stdin := (scanf_f s.stdin).rest,
               stdout := s.stdout ++ [promptMsg, lowMsg, promptMsg],
               scanned := s.scanned ++ [x.toF32] } := by
    rw [show 7 = 5 + 2 from rfl, run_add, h5]
    simp [run, step, hflag]
  refine ⟨h5, by rw [h7], by rw [h7]; rfl, ?_⟩
  intro k hk hhalt
  have := run_halted_le s k 7 hhalt hk
  rw [this] at h7
  rw [h7] at hhalt
  cases hhalt

/-- C2 on the boundary input `10`: below-threshold message, then the prompt again. -/
theorem C2_at_most_10_reprompts_witness :
    scanNum (init .nan "10\n".toList).stdin = some (.quot false 10 1) ∧
    (Num.quot false 10 1).le 10 = true ∧
    (run 7 (init .nan "10\n".toList)).stdout =
      (init .nan "10\n".toList).stdout ++ ["Please enter a number above 10: ".toList,
          "That doesn't fit! Try again!\n".toList, "Please enter a number above 10: ".toList] :=
  ⟨by decide, by decide,
   (C2_at_most_10_reprompts (init .nan "10\n".toList) (.quot false 10 1) rfl (by decide)
      (by decide) (by decide)).2.2.1⟩

/-- C4, as stated, fails: on the input `n` then `15` the parse of `n` fails, but
`scanf` has consumed the line terminator after `n`, so the clearing loop drops
the following line as well: the iteration ends with the input exhausted and
the `15` was never evaluated. -/
theorem C4_next_line_dropped_counterexample :
    scanf_f "n\n15\n".toList = ⟨0, none, "15\n".toList⟩ ∧
    run 7 (init .nan "n\n15\n".toList) =
      { pc := .loop, user_value := .nan, invalid_number := 1, stdin := [],
        stdout := ["Please enter a number above 10: ".toList,
                   "Invalid input. Please enter a valid number.\n".toList],
        exit := none, scanned := [] } := by
  decide

/-- C4, amended: after a failed `scanf`, when the input it left unread holds a
newline, the program drops the unread characters up to and including the first
newline and nothing more: the iteration ends with exactly the text after that
newline as input, no value stored, and the next `scanf` starts there.  When the
failed `scanf` left the terminator of the first line of the input unread, the
text that remains is what follows that line. -/
theorem C4_discards_rest_of_line (s : State) (pre post : List Char)
    (hpc : s.pc = .loop) (hflag : s.invalid_number ≠ 0) (hfail : (scanf_f s.stdin).ret ≠ 1)
    (hrest : (scanf_f s.stdin).rest = pre ++ '\n' :: post) (hpre : '\n' ∉ pre) :
    run (pre.length + 5) s =
      { s with pc := .loop, stdin := post,
               stdout := s.stdout ++ ["Please enter a number above 10: ".toList,
                                      "Invalid input. Please enter a valid number.\n".toList] } ∧
    (∀ k, 3 ≤ k → k ≤ pre.length + 3 → (run k s).pc = .clear) ∧
    (run (pre.length + 7) s).pc = .scan ∧ (run (pre.length + 7) s).stdin = post ∧
    (run (pre.length + 7) s).scanned = s.scanned ∧
    (∀ line tail, s.stdin = line ++ '\n' :: tail → '\n' ∉ line →
      tail.length < (scanf_f s.stdin).rest.length → post = tail) := by
  have hI := iter_fail s pre post hpc hflag hfail hrest hpre
  refine ⟨hI, ?_, ?_, ?_, ?_, ?_⟩
  · intro k h3 hk
    by_contra hne
    have h3s := iter_scan_fail s hpc hflag hfail
    obtain ⟨j, rfl⟩ := Nat.exists_eq_add_of_le h3
    have hj : j ≤ pre.length := by omega
    rw [run_add, h3s, hrest] at hne
    clear hI h3s hk h3 hrest
    generalize hs0 :
      ({ s with pc := Pc.clear, stdin := pre ++ '\n' :: post,
                stdout := s.stdout ++ [promptMsg] } : State) = s0 at hne
    have hpc0 : s0.pc = .clear := by rw [← hs0]
    have hin0 : s0.stdin = pre ++ '\n' :: post := by rw [← hs0]
    clear hs0
    induction j generalizing s0 pre with
    | zero => exact hne hpc0
    | succ j ih =>
      cases pre with
      | nil => simp at hj
      | cons c cs =>
        have hc : c ≠ '\n' := fun hc => hpre (by simp [hc])
        have hcs : '\n' ∉ cs := fun hm => hpre (by simp [hm])
        have hstep : step s0 = { s0 with stdin := cs ++ '\n' :: post } := by
          obtain ⟨pc, uv, flag, inp, out, ex, sc⟩ := s0
          simp only at hpc0 hin0
          subst hpc0 hin0
          simp [step, getchar, newline_toNat, hc]
        rw [show j + 1 = 1 + j by omega, run_add] at hne
        simp only [run] at hne
        rw [hstep] at hne
        exact ih cs hcs (by simpa using hj) _ hne hpc0 rfl
  · rw [show pre.length + 7 = pre.length + 5 + 2 by omega, run_add, hI]
    simp [run, step, hflag]
  · rw [show pre.length + 7 = pre.length + 5 + 2 by omega, run_add, hI]
    simp [run, step, hflag]
  · rw [show pre.length + 7 = pre.length + 5 + 2 by omega, run_add, hI]
    simp [run, step, hflag]
  · intro line tail hline hnl hlen
    obtain ⟨ws, item, hsplit, _, _⟩ := scanf_split s.stdin
    rw [hrest] at hsplit hlen
    rw [hline] at hsplit
    -- the consumed part lies inside the first line
    have hl := congrArg List.length hsplit
    simp only [List.length_append, List.length_cons] at hl hlen
    have hcl : (ws ++ item).length ≤ line.length := by
      simp only [List.length_append]; omega
    have hpref : ws ++ item = line.take (ws ++ item).length := by
      have h1 : (line ++ '\n' :: tail).take (ws ++ item).length = ws ++ item := by
        rw [hsplit]; exact List.take_left' rfl
      rw [List.take_append_of_le_length hcl] at h1
      exact h1.symm
    have hnc : '\n' ∉ ws ++ item := by
      intro hm
      rw [hpref] at hm
      exact hnl (List.mem_of_mem_take hm)
    have hsplit2 : line ++ '\n' :: tail = (ws ++ item ++ pre) ++ '\n' :: post := by
      rw [hsplit]; simp
    have hnp : '\n' ∉ ws ++ item ++ pre := by
      intro hm
      rcases List.mem_append.mp hm with hm | hm
      · exact hnc hm
      · exact hpre hm
    exact (first_newline_unique _ _ _ _ hsplit2 hnl hnp).2.symm

/-- C4, amended, on the input `abc 20` then `15`: the whole first line goes, the
`20` included, and the next parse starts at `15`. -/
theorem C4_discards_rest_of_line_witness :
    (scanf_f (init .nan "abc 20\n15\n".toList).stdin).ret ≠ 1 ∧
    (scanf_f (init .nan "abc 20\n15\n".toList).stdin).rest = "abc 20".toList ++
        '\n' :: "15\n".toList ∧
    (run ("abc 20".toList.length + 7) (init .nan "abc 20\n15\n".toList)).stdin = "15\n".toList ∧
    (run ("abc 20".toList.length + 7) (init .nan "abc 20\n15\n".toList)).scanned =
      (init .nan "abc 20\n15\n".toList).scanned :=
  ⟨by decide, by decide,
   (C4_discards_rest_of_line (init .nan "abc 20\n15\n".toList) "abc 20".toList "15\n".toList rfl
      (by decide) (by decide) (by decide) (by decide)).2.2.2.1,
   (C4_discards_rest_of_line (init .nan "abc 20\n15\n".toList) "abc 20".toList "15\n".toList rfl
      (by decide) (by decide) (by decide) (by decide)).2.2.2.2.1⟩

/-- C5, as stated, fails: on the input `nan` then `11` the run returns, and the
value parsed before the accepted one is a NaN, which is not `<= 10` (it is
neither above 10 nor at most 10). -/
theorem C5_nan_counterexample :
    (run 13 (init (.finite false 0 0) "nan\n11\n".toList)).pc = .halted ∧
    (run 13 (init (.finite false 0 0) "nan\n11\n".toList)).scanned =
      [.nan, .finite false 11534336 (-20)] ∧
    F32.le .nan 10 = false ∧ F32.gt .nan 10 = false := by
  decide

/-- C5, amended: whenever `main` has returned, the exit status is 0, the output ends
with the success message and holds no other success message, that message
reports the last value stored, which is above 10, and no value stored before it
was above 10; and as long as `main` has not returned there is no exit status. -/
theorem C5_returns_only_after_accepting (v0 : F32) (input : List Char) (n : Nat)
    (hhalt : (run n (init v0 input)).pc = .halted) :
    (run n (init v0 input)).exit = some 0 ∧
    (∃ pre vs v, (run n (init v0 input)).stdout = pre ++ [("Thanks, that works! ".toList ++
        fmt2f v ++ " is a great choice!\n".toList)] ∧
      (∀ m ∈ pre, ∀ w, m ≠ ("Thanks, that works! ".toList ++ fmt2f w ++
          " is a great choice!\n".toList)) ∧
      (run n (init v0 input)).scanned = vs ++ [v] ∧ v.gt 10 = true ∧
      ∀ u ∈ vs, u.gt 10 = false) ∧
    (∀ k, (run k (init v0 input)).pc ≠ .halted → (run k (init v0 input)).exit = none) := by
  have hinv := inv_run n _ (inv_init v0 input)
  have hex : ∀ k, (run k (init v0 input)).pc ≠ .halted → (run k (init v0 input)).exit = none :=
    fun k hk => inv_exit_none _ (inv_run k _ (inv_init v0 input)) hk
  generalize run n (init v0 input) = s at hhalt hinv
  obtain ⟨pc, uv, flag, inp, out, ex, sc⟩ := s
  simp only at hhalt
  subst hhalt
  obtain ⟨h0, pre, vs, v, h1, h2, h3, h4, h5⟩ := hinv
  exact ⟨h0, ⟨pre, vs, v, h1, plain_no_success h2, h3, h5, h4⟩, hex⟩

/-- C5, amended, on the input `11`: the run returns after 8 statements. -/
theorem C5_returns_only_after_accepting_witness :
    (run 8 (init .nan "11\n".toList)).pc = .halted ∧
    (run 8 (init .nan "11\n".toList)).exit = some 0 ∧
    (∃ pre vs v, (run 8 (init .nan "11\n".toList)).stdout = pre ++
        [("Thanks, that works! ".toList ++ fmt2f v ++ " is a great choice!\n".toList)] ∧
      (∀ m ∈ pre, ∀ w, m ≠ ("Thanks, that works! ".toList ++ fmt2f w ++
          " is a great choice!\n".toList)) ∧
      (run 8 (init .nan "11\n".toList)).scanned = vs ++ [v] ∧ v.gt 10 = true ∧
      ∀ u ∈ vs, u.gt 10 = false) :=
  ⟨by decide,
   (C5_returns_only_after_accepting .nan "11\n".toList 8 (by decide)).1,
   (C5_returns_only_after_accepting .nan "11\n".toList 8 (by decide)).2.1⟩

/-- C6 fails on the code: with the input exhausted at the first `scanf`, the run
is in the clearing loop from the third statement on, for ever; only the prompt
was written, the invalid-input message never is, and the loop is not restarted. -/
theorem C6_end_of_input_hangs (v0 : F32) (n : Nat) :
    (scanf_f []).ret = -1 ∧
    run (n + 3) (init v0 []) =
      { pc := .clear, user_value := v0, invalid_number := 1, stdin := [],
        stdout := ["Please enter a number above 10: ".toList],
        exit := none, scanned := [] } := by
  refine ⟨by decide, ?_⟩
  have hrest : (scanf_f (init v0 []).stdin).rest = [] := by
    show (scanf_f []).rest = []
    decide
  have hret : (scanf_f (init v0 []).stdin).ret ≠ 1 := by
    show (scanf_f []).ret ≠ 1
    decide
  have h := iter_stuck (init v0 []) rfl (by simp [init]) hret (by rw [hrest]; simp) n
  rw [hrest] at h
  simp only [List.length_nil, Nat.zero_add] at h
  rw [Nat.add_comm, h]
  rfl

/-- C7: when no value above 10 is ever stored, `main` never returns, and from
some point on the run sits in `while (getchar() != '\n');` with the input
exhausted and the output unchanged. -/
theorem C7_exhausted_input_never_returns (v0 : F32) (input : List Char)
    (hnone : ∀ n, ∀ u ∈ (run n (init v0 input)).scanned, u.gt 10 = false) :
    (∀ n, (run n (init v0 input)).pc ≠ .halted) ∧
    ∃ N, ∀ n, N ≤ n → (run n (init v0 input)).pc = .clear ∧ (run n (init v0 input)).stdin = [] ∧
      (run n (init v0 input)).stdout = (run N (init v0 input)).stdout := by
  rcases progress input.length (init v0 input) (Nat.le_refl _) rfl (by simp [init]) with
    ⟨n, u, hu, hg⟩ | ⟨N, h1, h2⟩
  · rw [hnone n u hu] at hg; cases hg
  · refine ⟨?_, N, ?_⟩
    · intro n hhalt
      rcases Nat.le_total n N with hle | hle
      · rw [run_halted_le _ n N hhalt hle] at h1
        rw [h1] at hhalt; cases hhalt
      · rw [stuck_from _ N n h1 h2 hle, h1] at hhalt
        cases hhalt
    · intro n hn
      rw [stuck_from _ N n h1 h2 hn]
      exact ⟨h1, h2, rfl⟩

/-- C7 on the input `5`: the only value stored is 5, and the run never returns. -/
theorem C7_exhausted_input_never_returns_witness :
    (∀ n, (run n (init .nan "5\n".toList)).pc ≠ .halted) ∧
    ∃ N, ∀ n, N ≤ n → (run n (init .nan "5\n".toList)).pc = .clear ∧
      (run n (init .nan "5\n".toList)).stdin = [] ∧
      (run n (init .nan "5\n".toList)).stdout = (run N (init .nan "5\n".toList)).stdout :=
  C7_exhausted_input_never_returns .nan "5\n".toList five_never_accepted

/-- C8, as stated, fails, in two ways.  The lines `5` and `10.0000001` hold a
number at most 10 and then a number greater than 10, but the output is prompt,
below-threshold message, prompt, below-threshold message, prompt, with no
success message.  The lines `n` and `15` hold a token that is not a number and
then a number greater than 10, but the line of `15` is dropped with that of
`n`: the output is prompt, invalid-input message, prompt.  Both runs then stay
in the clearing loop. -/
theorem C8_transcript_counterexample :
    scanNum "5".toList = some (.quot false 5 1) ∧ (Num.quot false 5 1).le 10 = true ∧
    scanNum "10.0000001".toList = some (.quot false 100000001 10000000) ∧
    (Num.quot false 100000001 10000000).gt 10 = true ∧
    (∀ n, run (13 + n) (init .nan "5\n10.0000001\n".toList) =
      { pc := .clear, user_value := .finite false 10485760 (-20), invalid_number := 1,
        stdin := [],
        stdout := ["Please enter a number above 10: ".toList,
                   "That doesn't fit! Try again!\n".toList,
                   "Please enter a number above 10: ".toList,
                   "That doesn't fit! Try again!\n".toList,
                   "Please enter a number above 10: ".toList],
        exit := none,
        scanned := [.finite false 10485760 (-21), .finite false 10485760 (-20)] }) ∧
    scanf_f "n\n".toList = ⟨0, none, []⟩ ∧
    scanNum "15".toList = some (.quot false 15 1) ∧ (Num.quot false 15 1).gt 10 = true ∧
    (∀ n, run (10 + n) (init .nan "n\n15\n".toList) =
      { pc := .clear, user_value := .nan, invalid_number := 1, stdin := [],
        stdout := ["Please enter a number above 10: ".toList,
                   "Invalid input. Please enter a valid number.\n".toList,
                   "Please enter a number above 10: ".toList],
        exit := none, scanned := [] }) := by
  refine ⟨by decide, by decide, by decide, by decide, ?_, by decide, by decide, by decide, ?_⟩
  · intro n
    have h13 : run 13 (init .nan "5\n10.0000001\n".toList) =
        { pc := .clear, user_value := .finite false 10485760 (-20), invalid_number := 1,
          stdin := [],
          stdout := ["Please enter a number above 10: ".toList,
                     "That doesn't fit! Try again!\n".toList,
                     "Please enter a number above 10: ".toList,
                     "That doesn't fit! Try again!\n".toList,
                     "Please enter a number above 10: ".toList],
          exit := none,
          scanned := [.finite false 10485760 (-21), .finite false 10485760 (-20)] } := by
      decide
    rw [run_add, h13]
    exact run_clear_eof n _ rfl rfl
  · intro n
    have h10 : run 10 (init .nan "n\n15\n".toList) =
        { pc := .clear, user_value := .nan, invalid_number := 1, stdin := [],
          stdout := ["Please enter a number above 10: ".toList,
                     "Invalid input. Please enter a valid number.\n".toList,
                     "Please enter a number above 10: ".toList],
          exit := none, scanned := [] } := by
      decide
    rw [run_add, h10]
    exact run_clear_eof n _ rfl rfl

/-- C8, amended: for input made of lines of one token each, where each of the
first `n` tokens is either one on which `scanf` reports a matching failure
leaving the line terminator unread, or one that `scanf` consumes whole and
stores as a float not above 10, and the next token is one that `scanf` consumes
whole and stores as a float above 10, the run returns with status 0 and the
complete output is, for each of the first `n` tokens, the prompt and that
token's message (invalid-input or below-threshold), then the prompt and the
success message. -/
theorem C8_transcript_of_lines (v0 : F32) (toks : List (List Char)) (t tail : List Char) (v : F32)
    (htoks : ∀ x ∈ toks, IsToken x ∧ (Unparsed x ∨ ∃ u, ParsedAs x u ∧ u.gt 10 = false))
    (ht : IsToken t) (hscan : ParsedAs t v) (hv : v.gt 10 = true) :
    ∃ n, (run n (init v0 (joinLines toks ++ (t ++ '\n' :: tail)))).pc = .halted ∧
      (run n (init v0 (joinLines toks ++ (t ++ '\n' :: tail)))).exit = some 0 ∧
      (run n (init v0 (joinLines toks ++ (t ++ '\n' :: tail)))).stdout =
        transcript toks ++ ["Please enter a number above 10: ".toList,
          "Thanks, that works! ".toList ++ fmt2f v ++ " is a great choice!\n".toList] ∧
      ∀ m, n ≤ m → run m (init v0 (joinLines toks ++ (t ++ '\n' :: tail))) =
        run n (init v0 (joinLines toks ++ (t ++ '\n' :: tail))) := by
  obtain ⟨n, h1, h2, h3⟩ := transcript_run t tail v ht hscan hv toks
    (init v0 (joinLines toks ++ (t ++ '\n' :: tail))) [] rfl (by simp [init]) (by simp) rfl htoks
  refine ⟨n, h1, h2, ?_, fun m hm => run_halted_le _ n m h1 hm⟩
  rw [h3]; rfl

/-- C8, amended, on the lines `abc`, `5`, `15`: invalid-input message,
below-threshold message, then `Thanks, that works! 15.00 is a great choice!`. -/
theorem C8_transcript_of_lines_witness :
    (transcript ["abc".toList, "5".toList] ++ ["Please enter a number above 10: ".toList,
        "Thanks, that works! ".toList ++ fmt2f (.finite false 15728640 (-20)) ++
          " is a great choice!\n".toList]).map String.mk =
      ["Please enter a number above 10: ", "Invalid input. Please enter a valid number.\n",
       "Please enter a number above 10: ", "That doesn't fit! Try again!\n",
       "Please enter a number above 10: ", "Thanks, that works! 15.00 is a great choice!\n"] ∧
    ∃ n, (run n (init .nan "abc\n5\n15\n".toList)).pc = .halted ∧
      (run n (init .nan "abc\n5\n15\n".toList)).exit = some 0 ∧
      (run n (init .nan "abc\n5\n15\n".toList)).stdout =
        transcript ["abc".toList, "5".toList] ++ ["Please enter a number above 10: ".toList,
          "Thanks, that works! ".toList ++ fmt2f (.finite false 15728640 (-20)) ++
            " is a great choice!\n".toList] := by
  refine ⟨by decide, ?_⟩
  obtain ⟨n, h1, h2, h3, _⟩ := C8_transcript_of_lines .nan ["abc".toList, "5".toList] "15".toList []
    (.finite false 15728640 (-20))
    (by
      intro x hx
      rcases List.mem_cons.mp hx with rfl | hx
      · exact ⟨by decide, Or.inl (by decide)⟩
      · rcases List.mem_cons.mp hx with rfl | hx
        · exact ⟨by decide, Or.inr ⟨.finite false 10485760 (-21), by decide, by decide⟩⟩
        · cases hx)
    (by decide) (by decide) (by decide)
  exact ⟨n, h1, h2, h3⟩

/-- C9, as stated, fails: on the input `12abc` the parse succeeds, but what it
consumes is `12`, which is only the beginning of the white-space-delimited token
`12abc`; the unread input starts with `a`, not with white space.  On `20euros`
it consumes `20e`, and on `nan(1)` it consumes `nan`. -/
theorem C9_number_inside_token_counterexample :
    IsToken "12abc".toList ∧
    scanf_f "12abc\n".toList = ⟨1, some (.finite false 12582912 (-20)), "abc\n".toList⟩ ∧
    (run 3 (init .nan "12abc\n".toList)).pc = .test ∧
    (run 3 (init .nan "12abc\n".toList)).stdin = 'a' :: "bc\n".toList ∧
    isspace 'a' = false ∧
    scanf_f "20euros\n".toList = ⟨1, some (.finite false 10485760 (-19)), "uros\n".toList⟩ ∧
    scanf_f "nan(1)\n".toList = ⟨1, some .nan, "(1)\n".toList⟩ := by
  decide

/-- C9, amended: an iteration whose parse succeeds consumes the leading white
space (newlines included) and then one non-empty run of characters without
white space, and nothing else.  That run is the number read: scanned alone it
is consumed whole and gives the value stored, and it is as long as can be:
whatever comes after the first unread character, a scan of the run followed by
that character stops in front of it, with the same value.  What follows stays
unread to the end of the iteration, whether the value is accepted or not. -/
theorem C9_consumes_one_number (s : State) (v : F32) (rest : List Char)
    (hpc : s.pc = .loop) (hflag : s.invalid_number ≠ 0)
    (hscan : scanf_f s.stdin = ⟨1, some v, rest⟩) :
    (∃ ws item, s.stdin = ws ++ item ++ rest ∧ (∀ c ∈ ws, isspace c = true) ∧ item ≠ [] ∧
      (∀ c ∈ item, isspace c = false) ∧ scanf_f item = ⟨1, some v, []⟩ ∧
      (∀ c cs, rest = c :: cs → ∀ tail, scanf_f (item ++ c :: tail) = ⟨1, some v, c :: tail⟩)) ∧
    (∀ k, k ≤ 2 → (run k s).stdin = s.stdin) ∧
    (run 3 s).pc = .test ∧ (run 3 s).stdin = rest ∧ (run 3 s).scanned = s.scanned ++ [v] ∧
    (v.gt 10 = false → (run 5 s).pc = .loop ∧ (run 5 s).stdin = rest ∧
      (run 5 s).scanned = s.scanned ++ [v]) ∧
    (v.gt 10 = true → (run 8 s).pc = .halted ∧ (run 8 s).stdin = rest ∧
      (run 8 s).scanned = s.scanned ++ [v]) := by
  have h3 := iter_scan_ok s v rest hpc hflag hscan
  refine ⟨?_, ?_, by rw [h3], by rw [h3], by rw [h3], ?_, ?_⟩
  · obtain ⟨ws, item, h, hws, hok⟩ := scanf_split s.stdin
    rw [hscan] at h hok
    obtain ⟨hne, hitem, halone, hmax⟩ := hok rfl
    exact ⟨ws, item, h, hws, hne, hitem, halone, hmax⟩
  · intro k hk
    obtain ⟨pc, uv, flag, inp, out, ex, sc⟩ := s
    simp only at hpc hflag
    subst hpc
    interval_cases k <;> simp [run, step, hflag]
  · intro hv
    have h5 := iter_low s v rest hpc hflag hscan hv
    exact ⟨by rw [h5], by rw [h5], by rw [h5]⟩
  · intro hv
    have h8 := iter_high s v rest hpc hflag hscan hv
    exact ⟨by rw [h8], by rw [h8], by rw [h8]⟩

/-- C9, amended, on the input `5 15`: the first iteration consumes `5` and leaves
` 15`; the second consumes ` 15`; the values are stored in that order. -/
theorem C9_consumes_one_number_witness :
    scanf_f (init .nan "5 15\n".toList).stdin =
      ⟨1, some (.finite false 10485760 (-21)), " 15\n".toList⟩ ∧
    (run 3 (init .nan "5 15\n".toList)).stdin = " 15\n".toList ∧
    (run 5 (init .nan "5 15\n".toList)).stdin = " 15\n".toList ∧
    (run 13 (init .nan "5 15\n".toList)).scanned =
      [.finite false 10485760 (-21), .finite false 15728640 (-20)] ∧
    (run 13 (init .nan "5 15\n".toList)).stdin = ['\n'] :=
  ⟨by decide,
   (C9_consumes_one_number (init .nan "5 15\n".toList) (.finite false 10485760 (-21))
      " 15\n".toList rfl (by decide) (by decide)).2.2.2.1,
   ((C9_consumes_one_number (init .nan "5 15\n".toList) (.finite false 10485760 (-21))
      " 15\n".toList rfl (by decide) (by decide)).2.2.2.2.2.1 (by decide)).2.1,
   by decide, by decide⟩

/-- C10: the run is a function of the input alone.  Two runs on the same input,
whatever the uninitialised `user_value` holds at the start, agree after every
number of statements on the output, on the input consumed, on whether `main`
has returned and on the exit status. -/
theorem C10_output_depends_on_input_only (v0 v1 : F32) (input : List Char) (n : Nat) :
    (run n (init v0 input)).stdout = (run n (init v1 input)).stdout ∧
    (run n (init v0 input)).stdin = (run n (init v1 input)).stdin ∧
    (run n (init v0 input)).pc = (run n (init v1 input)).pc ∧
    (run n (init v0 input)).exit = (run n (init v1 input)).exit := by
  have h0 : SameBut (init v0 input) (init v1 input) := by
    simp [SameBut, init]
  obtain ⟨h1, _, h3, h4, h5, _, _⟩ := sameBut_run n _ _ h0
  exact ⟨h4, h3, h1, h5⟩

end Numbers
